import Mathlib

/-!
Cart and inventory engine of the AYM storefront (`src/public/js/app.js`).

Shallow embedding of the `ProductDB` class: the catalog (`products`), the cart
(`cart`) and the three browser-storage entries it writes.  JavaScript numbers
that hold stock and quantities are modelled as `Int` (the values `parseInt`
yields on numeric text); product identifiers are strings compared with `===`.
Every method becomes a function from the state before the call to the returned
boolean and the state after the call.
-/

namespace AymShop

/-! ## Data model -/

/-- Catalog entry, with the fields built by the handler of `src/api/products.js`. -/
structure Product where
  id : String
  name : String
  code : String
  description : String
  fullDescription : String
  price : String
  stock : Int
  category : String
  images : List String
deriving DecidableEq, Repr

/-- Cart line: the object literal `cartItem` built in `addToCart`. -/
structure CartItem where
  id : String
  name : String
  price : String
  quantity : Int
  images : List String
  category : String
deriving DecidableEq, Repr

/-- Browser storage entries written by `saveProducts`, `saveCart` and
`saveOriginalCart` (keys `aymShopProducts`, `aymShopCart`, `aymShopOriginalCart`);
`none` when the key was never written. -/
structure Storage where
  products : Option (List Product)
  cart : Option (List CartItem)
  originalCart : Option (List CartItem)
deriving DecidableEq, Repr

/-- State of a `ProductDB` instance that the cart and checkout methods read or write. -/
structure ProductDB where
  products : List Product
  cart : List CartItem
  storage : Storage
deriving DecidableEq, Repr

/-! ## Array helpers -/

/-- `Array.prototype.findIndex`: position of the first element satisfying `p`;
`none` stands for the result `-1`.  A found index is in bounds by its type. -/
def findIndex {α : Type} (p : α → Bool) : (xs : List α) → Option (Fin xs.length)
  | [] => none
  | x :: xs => if p x then some ⟨0, Nat.succ_pos _⟩ else (findIndex p xs).map Fin.succ

/-! ## Persistence -/

/-- `saveProducts()`: `localStorage.setItem(this.storageKey, JSON.stringify(this.products))`. -/
def ProductDB.saveProducts (db : ProductDB) : ProductDB :=
  { db with storage := { db.storage with products := some db.products } }

/-- `saveCart()`: `localStorage.setItem(this.cartStorageKey, JSON.stringify(this.cart))`. -/
def ProductDB.saveCart (db : ProductDB) : ProductDB :=
  { db with storage := { db.storage with cart := some db.cart } }

/-- `saveOriginalCart()`: writes the live cart under the original-cart key. -/
def ProductDB.saveOriginalCart (db : ProductDB) : ProductDB :=
  { db with storage := { db.storage with originalCart := some db.cart } }

/-! ## Catalog lookup -/

/-- `getProductById(id)`: `this.products.find(product => product.id === id)`. -/
def ProductDB.getProductById (db : ProductDB) (id : String) : Option Product :=
  db.products.find? (fun product => product.id == id)

/-! ## Cart methods -/

/-- `addToCart(productId, quantity = 1)` (lines 254-289). -/
def ProductDB.addToCart (db : ProductDB) (productId : String) (quantity : Int) :
    Bool × ProductDB :=
  match db.getProductById productId with
  | none => (false, db)
  | some product =>
    match findIndex (fun item => item.id == productId) db.cart with
    | some existingItemIndex =>
      let newQuantity := db.cart[existingItemIndex].quantity + quantity
      if newQuantity ≤ product.stock then
        (true, ProductDB.saveOriginalCart (ProductDB.saveCart
          { db with cart := (db.cart.set existingItemIndex
              { (db.cart[existingItemIndex]) with quantity := newQuantity }) }))
      else
        (false, db)
    | none =>
      if quantity ≤ product.stock then
        let cartItem : CartItem :=
          { id := product.id
            name := product.name
            price := product.price
            quantity := quantity
            images := product.images
            category := product.category }
        (true, ProductDB.saveOriginalCart (ProductDB.saveCart
          { db with cart := db.cart ++ [cartItem] }))
      else
        (false, db)

/-- `updateCartQuantity(productId, quantity)` (lines 291-310). -/
def ProductDB.updateCartQuantity (db : ProductDB) (productId : String) (quantity : Int) :
    Bool × ProductDB :=
  match db.getProductById productId with
  | none => (false, db)
  | some product =>
    match findIndex (fun item => item.id == productId) db.cart with
    | some cartItemIndex =>
      if quantity ≤ 0 then
        (true, ProductDB.saveOriginalCart (ProductDB.saveCart
          { db with cart := db.cart.eraseIdx cartItemIndex }))
      else if quantity ≤ product.stock then
        (true, ProductDB.saveOriginalCart (ProductDB.saveCart
          { db with cart := (db.cart.set cartItemIndex
              { (db.cart[cartItemIndex]) with quantity := quantity }) }))
      else
        (false, db)
    | none => (false, db)

/-- `removeFromCart(productId)` (lines 312-321). -/
def ProductDB.removeFromCart (db : ProductDB) (productId : String) : Bool × ProductDB :=
  match findIndex (fun item => item.id == productId) db.cart with
  | some index =>
    (true, ProductDB.saveOriginalCart (ProductDB.saveCart
      { db with cart := db.cart.eraseIdx index }))
  | none => (false, db)

/-- `clearCart()` (lines 323-327). -/
def ProductDB.clearCart (db : ProductDB) : ProductDB :=
  ProductDB.saveOriginalCart (ProductDB.saveCart { db with cart := [] })

/-! ## Checkout -/

/-- The `for (const cartItem of this.cart)` loop of `checkout()` (lines 343-351),
run on the lines still to visit and the catalog as mutated so far.  The object
`getProductById` returns is the catalog's own first element with that id, so the
assignment `product.stock -= cartItem.quantity` rewrites that element in place.
The boolean is the final value of `success`; `break` ends the loop at once. -/
def checkoutLoop : List CartItem → List Product → Bool × List Product
  | [], products => (true, products)
  | cartItem :: rest, products =>
    match findIndex (fun product => product.id == cartItem.id) products with
    | some i =>
      if products[i].stock ≥ cartItem.quantity then
        checkoutLoop rest
          (products.set i { (products[i]) with stock := products[i].stock - cartItem.quantity })
      else
        (false, products)
    | none => (false, products)

/-- `checkout()` (lines 340-360): the loop, then `saveProducts` and
`saveOriginalCart` only when `success` is still true. -/
def ProductDB.checkout (db : ProductDB) : Bool × ProductDB :=
  match checkoutLoop db.cart db.products with
  | (true, products) =>
    (true, ProductDB.saveOriginalCart (ProductDB.saveProducts { db with products := products }))
  | (false, products) => (false, { db with products := products })

/-- Position of the catalog entry that `getProductById(id)` returns (the first
one with that id), if there is one. -/
def productIndex (products : List Product) (id : String) : Option Nat :=
  (findIndex (fun product => product.id == id) products).map Fin.val

/-! ## Sequences of cart calls -/

/-- One call of a cart-mutating method, with its arguments. -/
inductive CartOp where
  | add (productId : String) (quantity : Int)
  | update (productId : String) (quantity : Int)
  | remove (productId : String)
  | clear
deriving DecidableEq, Repr

/-- State after one cart call (the returned boolean is dropped). -/
def ProductDB.applyOp (db : ProductDB) : CartOp → ProductDB
  | CartOp.add productId quantity => (db.addToCart productId quantity).2
  | CartOp.update productId quantity => (db.updateCartQuantity productId quantity).2
  | CartOp.remove productId => (db.removeFromCart productId).2
  | CartOp.clear => db.clearCart

/-- State after a sequence of cart calls, performed left to right. -/
def ProductDB.runOps (db : ProductDB) (ops : List CartOp) : ProductDB :=
  ops.foldl ProductDB.applyOp db

/-! ## Vocabulary of the specification -/

/-- The `existingQuantity` of the contract of `addToCart`: the quantity of the
line the cart holds for the product (the first one with that id), `0` when it
holds none. -/
def existingQuantity (cart : List CartItem) (productId : String) : Int :=
  match cart.find? (fun item => item.id == productId) with
  | some item => item.quantity
  | none => 0

/-- Position `i` holds `line`, which is the first line of `cart` with id `productId`. -/
def IsFirstLine (cart : List CartItem) (productId : String) (i : Nat) (line : CartItem) : Prop :=
  cart[i]? = some line ∧ line.id = productId ∧ ∀ l ∈ cart.take i, l.id ≠ productId

instance (cart : List CartItem) (productId : String) (i : Nat) (line : CartItem) :
    Decidable (IsFirstLine cart productId i line) := by
  unfold IsFirstLine
  infer_instance

/-- The cart holds no line with id `productId`. -/
def NoLineFor (cart : List CartItem) (productId : String) : Prop :=
  ∀ l ∈ cart, l.id ≠ productId

instance (cart : List CartItem) (productId : String) : Decidable (NoLineFor cart productId) := by
  unfold NoLineFor
  infer_instance

/-! ## Concrete data used in the examples -/

/-- A catalog entry with the given id and stock. -/
def sampleProduct (id : String) (stock : Int) : Product :=
  { id := id, name := "name", code := "code", description := "short", fullDescription := "long",
    price := "10", stock := stock, category := "general", images := ["img"] }

/-- A cart line with the given id and quantity. -/
def sampleLine (id : String) (quantity : Int) : CartItem :=
  { id := id, name := "name", price := "10", quantity := quantity, images := ["img"],
    category := "general" }

/-- A state with the given catalog and cart and nothing stored yet. -/
def sampleDb (products : List Product) (cart : List CartItem) : ProductDB :=
  { products := products, cart := cart,
    storage := { products := none, cart := none, originalCart := none } }

/-- Catalog with product `a` (stock 5); cart with a line for `b` and one for `a`. -/
def c4Db : ProductDB :=
  sampleDb [sampleProduct "a" 5] [sampleLine "b" 1, sampleLine "a" 2]

/-- The rejected checkout of the specification: L1 (qty 5, stock 5) and L2 (qty 3, stock 2). -/
def rejectedDb : ProductDB :=
  sampleDb [sampleProduct "p1" 5, sampleProduct "p2" 2] [sampleLine "p1" 5, sampleLine "p2" 3]

/-- The committed checkout of the specification: L1 (qty 2, stock 10) and L2 (qty 1, stock 1),
with a third product that the cart does not mention. -/
def committedDb : ProductDB :=
  sampleDb [sampleProduct "p1" 10, sampleProduct "p3" 7, sampleProduct "p2" 1]
    [sampleLine "p1" 2, sampleLine "p2" 1]

/-- Product `a` has stock 5; the cart holds two lines for `a`, of quantities 1 and 100. -/
def twoLinesDb : ProductDB :=
  sampleDb [sampleProduct "a" 5] [sampleLine "a" 1, sampleLine "a" 100]

/-! ## Stock validation of `showBill` -/

/-- The validation loop of `showBill()` (lines 1080-1089): the pair of the final
`stockValid` and `outOfStockItems`.  Every line whose product is missing or has
`product.stock < cartItem.quantity` clears the flag and pushes `cartItem.name`. -/
def showBillValidation (db : ProductDB) : Bool × List String :=
  db.cart.foldl
    (fun (state : Bool × List String) (cartItem : CartItem) =>
      match db.getProductById cartItem.id with
      | none => (false, state.2 ++ [cartItem.name])
      | some product =>
        if product.stock < cartItem.quantity then (false, state.2 ++ [cartItem.name])
        else state)
    (true, [])

/-- The offending lines in the words of the specification: the product is
unknown, or its stock is below the quantity of the line. -/
def isOffender (db : ProductDB) (line : CartItem) : Bool :=
  match db.getProductById line.id with
  | none => true
  | some product => decide (product.stock < line.quantity)

/-- Catalog with product `a` (stock 5) and an empty cart. -/
def emptyCartDb : ProductDB :=
  sampleDb [sampleProduct "a" 5] []

/-- One product with stock 2 and a cart line that takes both units. -/
def soldOutDb : ProductDB :=
  sampleDb [sampleProduct "p1" 2] [sampleLine "p1" 2]

/-! ## Prices

A JavaScript number is a double.  The numbers of this section are non-negative
integers, held as the `Nat` they are equal to: every natural number up to
`2 ^ 53` is a double, and above it only the multiples `c * 2 ^ e` with
`c < 2 ^ 53` are.  `roundToDouble` is the rounding that `parseInt` applies to
the number its digits write, and `numberToString` is the `toString` of a
number, with its exponent notation from `10 ^ 21` on.  Doubles end below
`2 ^ 1024`, where JavaScript goes on with `Infinity`: the model has no such
value, and every statement on prices is bounded far below that range. -/

/-- Value of a string of decimal digits, most significant digit first
(`48` is the code of the character `0`). -/
def decimalValue (digits : List Char) : Nat :=
  digits.foldl (fun value c => 10 * value + (c.toNat - 48)) 0

/-- Number of halvings that bring `n` below `2 ^ 53`: the exponent `e` of the
double nearest to `n`, whose significand is `n / 2 ^ e` or the next integer
(`fuel` bounds the recursion; `n` itself is enough). -/
def doubleExponent : Nat → Nat → Nat
  | 0, _ => 0
  | fuel + 1, n => if n < 2 ^ 53 then 0 else doubleExponent fuel (n / 2) + 1

/-- The double nearest to the natural number `n`, the one with the even
significand when `n` lies half-way between two doubles (round to nearest, ties
to even; below `2 ^ 1024`, see above). -/
def roundToDouble (n : Nat) : Nat :=
  let unit := 2 ^ doubleExponent n n
  let significand := n / unit
  let rest := n % unit
  if 2 * rest < unit ∨ (2 * rest = unit ∧ significand % 2 = 0) then significand * unit
  else (significand + 1) * unit

/-- `parseInt(string)` for a string that starts with neither blanks nor a sign
(the only strings `parsePrice` passes): the double nearest to the value of its
longest prefix of decimal digits, `none` (the result `NaN`) when that prefix is
empty. -/
def parseInt (string : String) : Option Nat :=
  match string.toList.takeWhile Char.isDigit with
  | [] => none
  | digit :: digits => some (roundToDouble (decimalValue (digit :: digits)))

/-- The `cleanString` of `parsePrice`:
`priceString.toString().replace(/[^\d,]/g, '').replace(/,/g, '')`. -/
def cleanString (priceString : String) : String :=
  String.mk ((priceString.toList.filter (fun c => c.isDigit || c == ',')).filter
    (fun c => c != ','))

/-- `parsePrice(priceString)` (lines 238-242): `0` for the empty string, else
`parseInt(cleanString) || 0`. -/
def parsePrice (priceString : String) : Nat :=
  if priceString = "" then 0
  else
    match parseInt (cleanString priceString) with
    | some value => value
    | none => 0

/-- `getCartTotal()` (lines 333-338): the `reduce` over the cart, from `0`. -/
def ProductDB.getCartTotal (db : ProductDB) : Int :=
  db.cart.foldl
    (fun (total : Int) (item : CartItem) =>
      let price := parsePrice item.price
      total + (price : Int) * item.quantity)
    0

/-- Search of `shortestDecimal` among the multiples of `10 ^ zeros`, from the
given number of trailing zeros downwards: the two multiples next to `double`
are tried, and of two that fit the closer one is taken (the one with the even
factor when they are equally close). -/
def shortestDecimalFrom (double : Nat) : Nat → Nat
  | 0 => double
  | zeros + 1 =>
    let unit := 10 ^ (zeros + 1)
    let below := double / unit * unit
    let above := below + unit
    let belowFits := decide (roundToDouble below = double)
    let aboveFits := decide (roundToDouble above = double)
    if belowFits && aboveFits then
      if double - below < above - double then below
      else if above - double < double - below then above
      else if double / unit % 2 = 0 then below
      else above
    else if belowFits then below
    else if aboveFits then above
    else shortestDecimalFrom double zeros

/-- The integer whose digits `toString` writes for a double: the one with the
fewest significant digits among the integers that round to `double` (the
closest to `double` among those).  It is `double` itself below `2 ^ 53`. -/
def shortestDecimal (double : Nat) : Nat :=
  shortestDecimalFrom double ((Nat.toDigits 10 double).length - 1)

/-- Exponent notation of `toString` for the digits of an integer: the
significant digits, a point after the first when there are several, then `e+`
and the decimal exponent. -/
def exponentForm (digits : List Char) : List Char :=
  let exponent := Nat.toDigits 10 (digits.length - 1)
  match (digits.reverse.dropWhile (fun c => c == '0')).reverse with
  | [] => []
  | [digit] => digit :: 'e' :: '+' :: exponent
  | digit :: fraction => digit :: '.' :: fraction ++ 'e' :: '+' :: exponent

/-- `number.toString()` for a non-negative integer (`number` stands for the
double nearest to it): the digits of `shortestDecimal`, written out in full
below `10 ^ 21` and in exponent notation from there on. -/
def numberToString (number : Nat) : String :=
  let double := roundToDouble number
  let digits := Nat.toDigits 10 (shortestDecimal double)
  if double < 10 ^ 21 then String.mk digits else String.mk (exponentForm digits)

/-- `\w` of a JavaScript regular expression: ASCII letters, digits and `_`. -/
def isWordChar (c : Char) : Bool :=
  c.isAlphanum || c == '_'

/-- Length of the run of decimal digits that starts the list. -/
def digitRun (cs : List Char) : Nat :=
  (cs.takeWhile Char.isDigit).length

/-- `.replace(/\B(?=(\d{3})+(?!\d))/g, ",")` on the characters `cs` that follow
the character `prev` (`none` at the start of the string).  The empty match is
found in front of a character when the run of digits starting there has a
length that is a positive multiple of 3 (the look-ahead) and the character
before is a word character (`\B`, as the next one is a digit). -/
def insertCommas : Option Char → List Char → List Char
  | _, [] => []
  | prev, c :: cs =>
    (if (prev.map isWordChar).getD false && decide (0 < digitRun (c :: cs))
        && decide (digitRun (c :: cs) % 3 = 0) then [','] else [])
      ++ c :: insertCommas (some c) cs

/-- `formatNumberWithCommas(number)` (lines 234-236): `"0"` when `number` is
falsy, else its digits with the commas inserted. -/
def formatNumberWithCommas (number : Nat) : String :=
  if number = 0 then "0"
  else String.mk (insertCommas none (numberToString number).toList)

/-- Argument of `formatPrice`: a string (`typeof price === 'string'`) or a number. -/
inductive Price where
  | text (price : String)
  | number (price : Nat)
deriving DecidableEq, Repr

/-- `formatPrice(price)` (lines 244-251). -/
def formatPrice : Price → String
  | Price.text price =>
    let numericPart := parsePrice price
    let formattedNumber := formatNumberWithCommas numericPart
    formattedNumber ++ " افغانی"
  | Price.number price => formatNumberWithCommas price ++ " افغانی"

/-! ## Search and pagination -/

/-- The string methods of the platform that `searchProducts` calls, with the
facts about them that are used: `toLowerCase` maps the empty string, and no
other, to the empty string, and `trim` leaves the empty string empty. -/
structure StringOps where
  toLowerCase : String → String
  trim : String → String
  toLowerCase_eq_empty : ∀ s, toLowerCase s = "" ↔ s = ""
  trim_empty : trim "" = ""

/-- `string.includes(searchString)`: `searchString` occurs in `string`. -/
def includes (string searchString : String) : Bool :=
  string.toList.tails.any (fun rest => searchString.toList.isPrefixOf rest)

/-- The fields of `ProductDB` that hold the current view of the catalog.  The
page size `itemsPerPage` is set to 20 by the constructor and never assigned
again. -/
structure SearchView where
  currentSearchResults : List Product
  currentCategory : String
  currentPage : Int
deriving DecidableEq, Repr

/-- `this.itemsPerPage`. -/
def itemsPerPage : Int := 20

/-- `Array.prototype.slice(start, end)`: a negative index counts from the end,
and both are clamped to the bounds of the array. -/
def slice {α : Type} (xs : List α) (start stop : Int) : List α :=
  let len : Int := xs.length
  let k := if start < 0 then max (len + start) 0 else min start len
  let final := if stop < 0 then max (len + stop) 0 else min stop len
  (xs.drop k.toNat).take (final - k).toNat

/-- `getPaginatedProducts()` (lines 224-228). -/
def getPaginatedProducts (view : SearchView) : List Product :=
  let startIndex := (view.currentPage - 1) * itemsPerPage
  let endIndex := startIndex + itemsPerPage
  slice view.currentSearchResults startIndex endIndex

/-- `searchProducts(query, category)` (lines 199-222) on the catalog
`products`: the returned page and the view after the call.  (When the caller
omits `category`, it is `this.currentCategory`.) -/
def searchProducts (ops : StringOps) (products : List Product) (view : SearchView)
    (query category : String) : List Product × SearchView :=
  let filteredProducts := products
  let filteredProducts :=
    if category != "all" && category != "همه" then
      filteredProducts.filter (fun product => product.category == category)
    else filteredProducts
  let filteredProducts :=
    if query != "" && ops.trim query != "" then
      let searchTerm := ops.toLowerCase query
      filteredProducts.filter (fun product =>
        (product.name != "" && includes (ops.toLowerCase product.name) searchTerm) ||
        (product.code != "" && includes (ops.toLowerCase product.code) searchTerm) ||
        (product.description != "" &&
          includes (ops.toLowerCase product.description) searchTerm) ||
        (product.fullDescription != "" &&
          includes (ops.toLowerCase product.fullDescription) searchTerm))
    else filteredProducts
  let view := { view with currentSearchResults := filteredProducts, currentCategory := category }
  (getPaginatedProducts view, view)

/-- The query test in the words of the specification: the name, the code, the
description or the full description, lowercased, contains the lowercased query. -/
def matchesQuery (ops : StringOps) (query : String) (product : Product) : Bool :=
  includes (ops.toLowerCase product.name) (ops.toLowerCase query) ||
  includes (ops.toLowerCase product.code) (ops.toLowerCase query) ||
  includes (ops.toLowerCase product.description) (ops.toLowerCase query) ||
  includes (ops.toLowerCase product.fullDescription) (ops.toLowerCase query)

/-- The filtered result in the words of the specification, given the category
names that count as the sentinel: the catalog restricted to the category
(stage skipped for a sentinel), then, when the query is not empty after
trimming, to the products that match the query. -/
def filteredBySpec (sentinels : List String) (ops : StringOps) (products : List Product)
    (query category : String) : List Product :=
  let stage1 :=
    if category ∈ sentinels then products
    else products.filter (fun product => product.category == category)
  if ops.trim query = "" then stage1 else stage1.filter (matchesQuery ops query)

/-- The platform methods on ASCII text: letters `A`-`Z` are lowered, and blanks,
tabs and line ends are trimmed. -/
def asciiOps : StringOps where
  toLowerCase s := String.mk (s.toList.map Char.toLower)
  trim s := String.mk
    (((s.toList.dropWhile Char.isWhitespace).reverse.dropWhile Char.isWhitespace).reverse)
  toLowerCase_eq_empty := by
    intro s
    cases s with
    | mk l =>
      constructor
      · intro h
        have h2 := congrArg String.data h
        simp only [String.toList] at h2
        have h3 : l = [] := by simpa using h2
        rw [h3]
      · intro h
        have h3 : l = [] := congrArg String.data h
        rw [h3]
        rfl
  trim_empty := rfl

/-- The view set up by the constructor: nothing found yet, category `all`, page 1. -/
def initialView : SearchView :=
  { currentSearchResults := [], currentCategory := "all", currentPage := 1 }

/-- A catalog entry with the given id and name. -/
def namedProduct (id name : String) : Product :=
  { sampleProduct id 1 with name := name }

/-- A catalog of 21 products: twenty named `aa` and a last one named `zz`. -/
def catalog21 : List Product :=
  (List.range 20).map (fun i => namedProduct (toString i) "aa") ++ [namedProduct "20" "zz"]

/-- Two lines for `a` and `b`, with both products in the catalog. -/
def distinctDb : ProductDB :=
  sampleDb [sampleProduct "a" 5, sampleProduct "b" 3, sampleProduct "c" 4]
    [sampleLine "a" 1, sampleLine "b" 2]

/-- `showBill()` once the customer information is confirmed (lines 1069-1186),
as far as the state of the shop goes: it returns at once when the cart is empty
or when the validation loop rejects; otherwise the bill is rendered and
`db.checkout()` is called.  The boolean tells whether `checkout()` was reached. -/
def showBill (db : ProductDB) : Bool × ProductDB :=
  if db.cart.length = 0 then (false, db)
  else if (showBillValidation db).1 = false then (false, db)
  else (true, (db.checkout).2)

/-! ## Product cards and the plus button -/

/-- The `cartQuantity` that `renderProducts` (lines 517-518) and
`handlePlusClick` (lines 868-869) compute: the quantity of the cart line found
for the product, 0 when there is none. -/
def cartQuantityFor (db : ProductDB) (productId : String) : Int :=
  match db.cart.find? (fun item => item.id == productId) with
  | some cartItem => cartItem.quantity
  | none => 0

/-- The `disabled` attribute of the plus button of a product card in
`renderProducts` (lines 519 and 589): `availableStock <= cartQuantity`. -/
def renderProductsPlusDisabled (db : ProductDB) (product : Product) : Bool :=
  let cartQuantity := cartQuantityFor db product.id
  let availableStock := product.stock - cartQuantity
  decide (availableStock ≤ cartQuantity)

/-- Whether `handlePlusClick(productId)` (lines 866-890) disables the plus
button: only after a successful `addToCart(productId, 1)`, when
`product.stock - (currentQuantity + 1) <= 0`. -/
def handlePlusClickDisablesPlus (db : ProductDB) (productId : String) : Bool :=
  match db.getProductById productId with
  | none => false
  | some product =>
    let currentQuantity := cartQuantityFor db productId
    if (db.addToCart productId 1).1 then
      let availableStock := product.stock - (currentQuantity + 1)
      decide (availableStock ≤ 0)
    else false

/-- Product `a` with stock 10 and 5 units of it in the cart. -/
def halfFullDb : ProductDB :=
  sampleDb [sampleProduct "a" 10] [sampleLine "a" 5]

/-! ## Pages -/

/-- `getTotalPages()` (lines 230-232):
`Math.ceil(this.currentSearchResults.length / this.itemsPerPage)`. -/
def getTotalPages (view : SearchView) : Int :=
  Int.ceil (((view.currentSearchResults.length : Int) : ℚ) / ((itemsPerPage : Int) : ℚ))

/-- The handlers that start a search (search button, search input and category
item, lines 1401-1405, 1430-1435 and 486-488): `db.currentPage = 1`, then
`db.searchProducts(...)`. -/
def searchHandler (ops : StringOps) (products : List Product) (view : SearchView)
    (query category : String) : List Product × SearchView :=
  searchProducts ops products { view with currentPage := 1 } query category

/-- A view on page 3 of an empty result. -/
def pageThreeView : SearchView :=
  { currentSearchResults := [], currentCategory := "all", currentPage := 3 }

/-- A view of 45 products on the given page. -/
def view45 (page : Int) : SearchView :=
  { currentSearchResults := (List.range 45).map (fun i => namedProduct (toString i) "aa"),
    currentCategory := "all", currentPage := page }

/-! ## The bill serial -/

/-- `string.padStart(targetLength, padString)`: `padString` repeated, and cut to
the missing length, in front of `string`. -/
def padStart (string : String) (targetLength : Nat) (padString : String) : String :=
  if targetLength ≤ string.length ∨ padString = "" then string
  else
    let fillLength := targetLength - string.length
    String.mk (((List.replicate fillLength padString.toList).flatten).take fillLength
      ++ string.toList)

/-- `generateBillSerial()` (lines 1029-1037), given what the clock and the
random generator deliver: `getMonth` is `now.getMonth()`, `getDate` is
`now.getDate()` and `draw` is `Math.floor(Math.random() * 10000)`.  The result
is the returned serial (also stored in `db.billSerial`). -/
def generateBillSerial (getMonth getDate draw : Nat) : String :=
  let month := padStart (numberToString (getMonth + 1)) 2 "0"
  let day := padStart (numberToString getDate) 2 "0"
  let random := padStart (numberToString draw) 4 "0"
  "AYM-" ++ month ++ "-" ++ random ++ "-" ++ day

/-- The number `n` written in decimal and zero-padded to `width` digits, in the
words of the specification. -/
def zeroPadded (width n : Nat) : String :=
  String.mk (List.replicate (width - (Nat.toDigits 10 n).length) '0' ++ Nat.toDigits 10 n)

/-! ## Ingestion of the catalog (`src/api/products.js`)

The cells of a record are modelled by their JavaScript kind.  The `url` of an
attachment object is a string, as Airtable delivers it. -/

/-- An element of an array cell: `null`, a string, or an object with its `url`
property when it has one. -/
inductive Item where
  | null
  | text (s : String)
  | object (url : Option String)
deriving DecidableEq, Repr

/-- A value of `record.fields`. -/
inductive Cell where
  | text (s : String)
  | number (n : Int)
  | bool (b : Bool)
  | list (items : List Item)
  | object (url : Option String)
deriving DecidableEq, Repr

/-- A record of the Airtable answer: `record.id` and the entries of
`record.fields`, in the order of `Object.entries`. -/
structure RawRecord where
  id : String
  fields : List (String × Cell)
deriving DecidableEq, Repr

/-- Truthiness of a cell: the empty string, `0` and `false` are falsy. -/
def Cell.truthy : Cell → Bool
  | Cell.text s => s != ""
  | Cell.number n => n != 0
  | Cell.bool b => b
  | Cell.list _ => true
  | Cell.object _ => true

/-- The value of `att && att.url` when it is truthy: the non-empty `url` of an
element that is an object. -/
def Item.truthyUrl : Item → Option String
  | Item.object (some url) => if url != "" then some url else none
  | _ => none

/-- `fields[name]`; `none` is `undefined`. -/
def getField (fields : List (String × Cell)) (name : String) : Option Cell :=
  (fields.find? (fun entry => entry.1 == name)).map (fun entry => entry.2)

/-- `a || b` for a cell `a` that may be `undefined`. -/
def orElse (a : Option Cell) (b : Cell) : Cell :=
  match a with
  | some cell => if cell.truthy then cell else b
  | none => b

/-- `extractImages(attachments)` (lines 87-95). -/
def extractImages (attachments : Option Cell) : List String :=
  match attachments with
  | none => []
  | some cell =>
    if !cell.truthy then []
    else
      match cell with
      | Cell.list items => items.filterMap Item.truthyUrl
      | Cell.object (some url) => if url != "" then [url] else []
      | _ => []

/-- The fixed image field names (line 98). -/
def imageFields : List String := ["تصویر", "عکس", "Image", "Picture", "Photo"]

/-- First gathering loop (lines 101-107): the fixed field names, in order. -/
def candidateImages (fields : List (String × Cell)) : List String :=
  imageFields.foldl
    (fun foundImages fieldName =>
      match getField fields fieldName with
      | some fieldValue =>
        if fieldValue.truthy then foundImages ++ extractImages (some fieldValue)
        else foundImages
      | none => foundImages)
    []

/-- The test `Array.isArray(value) && value[0] && value[0].url` (line 113). -/
def looksLikeAttachments : Cell → Bool
  | Cell.list (first :: _) => (Item.truthyUrl first).isSome
  | _ => false

/-- Second gathering loop (lines 110-117), over `Object.entries(fields)`. -/
def matchingImages (ops : StringOps) (fields : List (String × Cell)) : List String :=
  fields.foldl
    (fun foundImages entry =>
      if includes (ops.toLowerCase entry.1) "image" || includes (ops.toLowerCase entry.1) "pic"
          || looksLikeAttachments entry.2 then
        foundImages ++ extractImages (some entry.2)
      else foundImages)
    []

/-- The `foundImages` of a record after both loops. -/
def foundImages (ops : StringOps) (fields : List (String × Cell)) : List String :=
  candidateImages fields ++ matchingImages ops fields

/-- `[...new Set(values)]`: the values in the order of their first occurrence. -/
def newSet (values : List String) : List String :=
  values.foldl (fun set value => if value ∈ set then set else set ++ [value]) []

/-- The string a cell has as a property key (`String(value)`). -/
def Cell.toKey : Cell → String
  | Cell.text s => s
  | Cell.number n =>
    if n < 0 then "-" ++ numberToString n.natAbs else numberToString n.natAbs
  | Cell.bool b => if b then "true" else "false"
  | Cell.list items =>
    ",".intercalate (items.map (fun item =>
      match item with
      | Item.null => ""
      | Item.text s => s
      | Item.object _ => "[object Object]"))
  | Cell.object _ => "[object Object]"

/-- The table `categoryEmojis` (lines 149-168). -/
def categoryEmojis : List (String × String) :=
  [("آرایشی و بهداشتی", "💄"), ("مراقبت مو", "🧴"), ("مراقبت پوست", "🧴"), ("بهداشتی", "🧼"),
   ("لوازم آرایشی", "💅"), ("عطر", "🌸"), ("کرم", "🧴"), ("شامپو", "🧴"), ("صابون", "🧼"),
   ("لوازم خانگی", "🏠"), ("لباس", "👕"), ("کفش", "👟"), ("اکسسوری", "👜"),
   ("لوازم الکترونیکی", "📱"), ("کتاب", "📚"), ("اسباب بازی", "🧸"), ("خوراکی", "🍎"),
   ("عمومی", "📦")]

/-- `getCategoryPlaceholder(category)` (lines 148-170): the entry of the table
under the key of `category`, `📦` when there is none (the members that the
table object inherits, such as `constructor`, are not modelled). -/
def getCategoryPlaceholder (category : Cell) : String :=
  match categoryEmojis.find? (fun entry => entry.1 == category.toKey) with
  | some entry => entry.2
  | none => "📦"

/-- The placeholder image pushed when no image was found (line 125). -/
def placeholderImage (emoji : String) : String :=
  "data:image/svg+xml,<svg xmlns=\"http://www.w3.org/2000/svg\" width=\"400\" height=\"300\" viewBox=\"0 0 100 100\"><rect width=\"100\" height=\"100\" fill=\"%23f5f5f5\"/><text x=\"50\" y=\"50\" font-size=\"40\" text-anchor=\"middle\" dy=\".3em\" fill=\"%23999\">"
    ++ emoji ++ "</text></svg>"

/-- White space that `parseInt` skips in front of its input. -/
def isStrWhiteSpace (c : Char) : Bool :=
  c == ' ' || c == '\t' || c == '\n' || c == '\r' || c.toNat == 0x0B || c.toNat == 0x0C ||
  c.toNat == 0xA0 || c.toNat == 0x1680 || (0x2000 ≤ c.toNat && c.toNat ≤ 0x200A) ||
  c.toNat == 0x2028 || c.toNat == 0x2029 || c.toNat == 0x202F || c.toNat == 0x205F ||
  c.toNat == 0x3000 || c.toNat == 0xFEFF

/-- Value of a hexadecimal digit. -/
def hexDigitValue (c : Char) : Option Nat :=
  if c.isDigit then some (c.toNat - 48)
  else if 'a'.toNat ≤ c.toNat && c.toNat ≤ 'f'.toNat then some (c.toNat - 87)
  else if 'A'.toNat ≤ c.toNat && c.toNat ≤ 'F'.toNat then some (c.toNat - 55)
  else none

/-- Value of the longest prefix of digits of the given kind, in the given
radix; `none` (the result `NaN`) when that prefix is empty. -/
def digitsPrefixValue (radix : Nat) (digit : Char → Option Nat) (cs : List Char) :
    Option Nat :=
  match cs.takeWhile (fun c => (digit c).isSome) with
  | [] => none
  | first :: others =>
    some ((first :: others).foldl (fun value c => radix * value + (digit c).getD 0) 0)

/-- `parseInt(string)` without a radix: leading white space, an optional sign,
then hexadecimal digits after `0x` or `0X` and decimal digits otherwise; the
result is the double nearest to the number they write. -/
def parseIntText (string : String) : Option Int :=
  let cs := string.toList.dropWhile isStrWhiteSpace
  let signed : Bool × List Char :=
    match cs with
    | '-' :: rest => (true, rest)
    | '+' :: rest => (false, rest)
    | _ => (false, cs)
  let magnitude : Option Nat :=
    match signed.2 with
    | '0' :: 'x' :: rest => digitsPrefixValue 16 hexDigitValue rest
    | '0' :: 'X' :: rest => digitsPrefixValue 16 hexDigitValue rest
    | rest =>
      digitsPrefixValue 10 (fun c => if c.isDigit then some (c.toNat - 48) else none) rest
  magnitude.map (fun value =>
    if signed.1 then -(roundToDouble value : Int) else (roundToDouble value : Int))

/-- A product as built by the handler (lines 73-83 and 120-126).  The text
cells are kept as delivered; `stock` is the result of `parseInt`, `none` when
it is `NaN`. -/
structure IngestedProduct where
  id : String
  name : Cell
  code : Cell
  description : Cell
  fullDescription : Cell
  price : Cell
  stock : Option Int
  category : Cell
  images : List String
deriving DecidableEq, Repr

/-- The `stock` of the product (line 81):
`parseInt(fields['موجودی'] || fields['Stock'] || fields['تعداد'] || 0)`. -/
def ingestStock (fields : List (String × Cell)) : Option Int :=
  parseIntText
    (orElse (getField fields "موجودی")
      (orElse (getField fields "Stock")
        (orElse (getField fields "تعداد") (Cell.number 0)))).toKey

/-- Whether `fields[name]` is truthy. -/
def truthyField (fields : List (String × Cell)) (name : String) : Bool :=
  match getField fields name with
  | some cell => cell.truthy
  | none => false

/-- The body of the loop over `data.records` (lines 65-129): `none` when the
record is skipped for want of a name, else the product pushed. -/
def ingestRecord (ops : StringOps) (record : RawRecord) : Option IngestedProduct :=
  let fields := record.fields
  if !truthyField fields "نام" && !truthyField fields "Name"
      && !truthyField fields "Product Name" then none
  else
    let description :=
      orElse (getField fields "توضیح")
        (orElse (getField fields "Description")
          (orElse (getField fields "توضیحات") (Cell.text "بدون توضیح")))
    let category :=
      orElse (getField fields "دسته‌بندی")
        (orElse (getField fields "Category")
          (orElse (getField fields "دسته") (Cell.text "عمومی")))
    let images := newSet (foundImages ops fields)
    let images :=
      if images.length = 0 then images ++ [placeholderImage (getCategoryPlaceholder category)]
      else images
    some
      { id := record.id
        name :=
          orElse (getField fields "نام")
            (orElse (getField fields "Name")
              (orElse (getField fields "Product Name") (Cell.text "محصول بدون نام")))
        code :=
          orElse (getField fields "کود")
            (orElse (getField fields "Code")
              (orElse (getField fields "Product Code")
                (Cell.text ("CODE-" ++ String.mk (record.id.toList.take 4)))))
        description := description
        fullDescription :=
          orElse (getField fields "توضیح کامل")
            (orElse (getField fields "Full Description")
              (orElse (getField fields "توضیحات کامل") description))
        price :=
          orElse (getField fields "قیمت")
            (orElse (getField fields "Price")
              (orElse (getField fields "قیمت (افغانی)") (Cell.text "0 افغانی")))
        stock := ingestStock fields
        category := category
        images := images }

/-- The products of the answer: the records that are not skipped, in order. -/
def ingest (ops : StringOps) (records : List RawRecord) : List IngestedProduct :=
  records.filterMap (ingestRecord ops)

/-- A record with a name and a stock cell holding the text `abc`. -/
def textStockRecord : RawRecord :=
  { id := "rec1", fields := [("Name", Cell.text "soap"), ("Stock", Cell.text "abc")] }

/-- A record with a name, the image `u1` under `Image` and the images `u2`,
`u1` under a field named `Product images`. -/
def picturesRecord : RawRecord :=
  { id := "rec2",
    fields := [("Name", Cell.text "soap"),
      ("Product images", Cell.list [Item.object (some "u2"), Item.object (some "u1")]),
      ("Image", Cell.list [Item.object (some "u1"), Item.null])] }

/-- A record with a name and a category and no image at all. -/
def plainRecord : RawRecord :=
  { id := "rec3", fields := [("Name", Cell.text "book"), ("Category", Cell.text "کتاب")] }

/-! ## Lemmas on `findIndex` -/


theorem findIndex_eq_none_iff {α : Type} (p : α → Bool) (xs : List α) :
    findIndex p xs = none ↔ ∀ x ∈ xs, p x = false := by
  induction xs with
  | nil => simp [findIndex]
  | cons x xs ih =>
    by_cases hx : p x = true
    · simp [findIndex, hx]
    · simp [findIndex, hx, ih]

theorem findIndex_some_spec {α : Type} (p : α → Bool) (xs : List α) (i : Fin xs.length)
    (h : findIndex p xs = some i) :
    p xs[i] = true ∧ ∀ l ∈ xs.take i.val, p l = false := by
  induction xs with
  | nil => exact i.elim0
  | cons x xs ih =>
    by_cases hx : p x = true
    · simp [findIndex, hx] at h
      subst h
      simp [hx]
    · simp only [findIndex, hx, Bool.false_eq_true, if_false, Option.map_eq_some'] at h
      obtain ⟨k, hk, rfl⟩ := h
      obtain ⟨h1, h2⟩ := ih k hk
      refine ⟨by simpa using h1, ?_⟩
      intro l hl
      simp only [Fin.val_succ, List.take_succ_cons, List.mem_cons] at hl
      rcases hl with rfl | hl
      · simpa using hx
      · exact h2 l hl

theorem findIndex_of_first {α : Type} (p : α → Bool) (xs : List α) (i : Nat) (x : α)
    (h1 : xs[i]? = some x) (h2 : p x = true) (h3 : ∀ l ∈ xs.take i, p l = false) :
    ∃ hi : i < xs.length, findIndex p xs = some ⟨i, hi⟩ := by
  induction xs generalizing i with
  | nil => simp at h1
  | cons y ys ih =>
    cases i with
    | zero =>
      simp at h1
      subst h1
      exact ⟨by simp, by simp [findIndex, h2]⟩
    | succ k =>
      simp only [List.getElem?_cons_succ] at h1
      have hy : p y = false := h3 y (by simp)
      obtain ⟨hk, hf⟩ := ih k h1 (fun l hl => h3 l (by simp [hl]))
      refine ⟨by simpa using hk, ?_⟩
      simp [findIndex, hy, hf]

theorem find?_eq_findIndex {α : Type} (p : α → Bool) (xs : List α) :
    xs.find? p = (findIndex p xs).map (fun i => xs[i]) := by
  induction xs with
  | nil => simp [findIndex]
  | cons x xs ih =>
    by_cases hx : p x = true
    · simp [findIndex, hx]
    · simp [findIndex, hx, ih, Option.map_map, Function.comp_def]

/-! ## Cart methods: lookups and the contract of addToCart -/
theorem findIndex_of_isFirstLine (cart : List CartItem) (productId : String) (i : Nat)
    (line : CartItem) (h : IsFirstLine cart productId i line) :
    ∃ hi : i < cart.length,
      findIndex (fun item => item.id == productId) cart = some ⟨i, hi⟩ ∧ cart[i] = line := by
  obtain ⟨h1, h2, h3⟩ := h
  obtain ⟨hi, hf⟩ := findIndex_of_first (fun item => item.id == productId) cart i line h1
    (by simpa using h2) (fun l hl => by simpa using h3 l hl)
  refine ⟨hi, hf, ?_⟩
  rw [List.getElem?_eq_getElem hi] at h1
  exact Option.some.inj h1

theorem isFirstLine_of_findIndex (cart : List CartItem) (productId : String)
    (i : Fin cart.length) (h : findIndex (fun item => item.id == productId) cart = some i) :
    IsFirstLine cart productId i.val cart[i] := by
  obtain ⟨h1, h2⟩ := findIndex_some_spec _ _ _ h
  refine ⟨by simp, by simpa using h1, fun l hl => by simpa using h2 l hl⟩

theorem findIndex_none_of_noLineFor (cart : List CartItem) (productId : String) :
    findIndex (fun item => item.id == productId) cart = none ↔ NoLineFor cart productId := by
  rw [findIndex_eq_none_iff]
  simp [NoLineFor]

theorem existingQuantity_eq (cart : List CartItem) (productId : String) :
    existingQuantity cart productId =
      match findIndex (fun item => item.id == productId) cart with
      | some i => cart[i].quantity
      | none => 0 := by
  unfold existingQuantity
  rw [find?_eq_findIndex]
  cases findIndex (fun item => item.id == productId) cart <;> rfl

/-- C3: `addToCart` returns false exactly when the product is unknown or the
quantity already in the cart plus the requested one exceeds the stock, and a
false return leaves the whole state (the cart in particular) unchanged. -/
theorem addToCart_false_iff (db : ProductDB) (productId : String) (quantity : Int) :
    ((db.addToCart productId quantity).1 = false ↔
      (db.getProductById productId = none ∨
        ∃ product, db.getProductById productId = some product ∧
          existingQuantity db.cart productId + quantity > product.stock)) ∧
    ((db.addToCart productId quantity).1 = false →
      (db.addToCart productId quantity).2 = db ∧
      (db.addToCart productId quantity).2.cart = db.cart) := by
  rw [existingQuantity_eq]
  unfold ProductDB.addToCart
  cases hp : db.getProductById productId with
  | none => simp
  | some product =>
    cases hi : findIndex (fun item => item.id == productId) db.cart with
    | none =>
      by_cases hq : quantity ≤ product.stock
      · simp [hq]
      · simp [hq]; omega
    | some i =>
      by_cases hq : db.cart[i.val].quantity + quantity ≤ product.stock
      · simp [hq]
      · simp [hq]; omega

theorem exists_isFirstLine (cart : List CartItem) (productId : String)
    (h : ¬ NoLineFor cart productId) :
    ∃ i line, IsFirstLine cart productId i line := by
  cases hf : findIndex (fun item => item.id == productId) cart with
  | none => exact absurd ((findIndex_none_of_noLineFor _ _).1 hf) h
  | some i => exact ⟨i.val, cart[i], isFirstLine_of_findIndex _ _ _ hf⟩

theorem eraseIdx_findIndex_all_false {α : Type} (p : α → Bool) (xs : List α)
    (i : Fin xs.length) (h : findIndex p xs = some i) (hc : xs.countP p ≤ 1) :
    ∀ x ∈ xs.eraseIdx i.val, p x = false := by
  induction xs with
  | nil => exact i.elim0
  | cons y ys ih =>
    by_cases hy : p y = true
    · simp [findIndex, hy] at h
      subst h
      simp only [List.countP_cons_of_pos _ _ hy] at hc
      have h0 : ys.countP p = 0 := by omega
      intro x hx
      have hx : x ∈ ys := by simpa using hx
      have := (List.countP_eq_zero.1 h0) x hx
      simpa using this
    · simp only [findIndex, hy, Bool.false_eq_true, if_false, Option.map_eq_some'] at h
      obtain ⟨k, hk, rfl⟩ := h
      simp only [List.countP_cons_of_neg _ _ hy] at hc
      intro x hx
      simp only [Fin.val_succ, List.eraseIdx_cons_succ, List.mem_cons] at hx
      rcases hx with rfl | hx
      · simpa using hy
      · exact ih k hk hc x hx

/-- C4: a successful `addToCart` upserts.  When the cart held a line for the
product, the first such line gets quantity old + qty and the cart is otherwise
the same list (same length, same other lines, same order); when it held none,
exactly one line is appended at the end, with the product's id, name, price,
images and category and the requested quantity. -/
theorem addToCart_true_upserts (db : ProductDB) (productId : String) (quantity : Int)
    (h : (db.addToCart productId quantity).1 = true) :
    ∃ product, db.getProductById productId = some product ∧
      (¬ NoLineFor db.cart productId →
        ∃ i line, IsFirstLine db.cart productId i line ∧
          (db.addToCart productId quantity).2.cart =
            db.cart.set i { line with quantity := line.quantity + quantity }) ∧
      (NoLineFor db.cart productId →
        (db.addToCart productId quantity).2.cart =
          db.cart ++ [{ id := product.id, name := product.name, price := product.price,
                        quantity := quantity, images := product.images,
                        category := product.category }]) := by
  cases hp : db.getProductById productId with
  | none => simp [ProductDB.addToCart, hp] at h
  | some product =>
    refine ⟨product, rfl, ?_, ?_⟩
    · intro hsome
      obtain ⟨i, line, hfirst⟩ := exists_isFirstLine _ _ hsome
      refine ⟨i, line, hfirst, ?_⟩
      obtain ⟨hi, hf, hl⟩ := findIndex_of_isFirstLine _ _ _ _ hfirst
      subst hl
      simp only [ProductDB.addToCart, hp, hf] at h ⊢
      by_cases hq : db.cart[i].quantity + quantity ≤ product.stock
      · simp [hq, ProductDB.saveOriginalCart, ProductDB.saveCart]
      · simp [hq] at h
    · intro hno
      have hf := (findIndex_none_of_noLineFor _ _).2 hno
      simp only [ProductDB.addToCart, hp, hf] at h ⊢
      by_cases hq : quantity ≤ product.stock
      · simp [hq, ProductDB.saveOriginalCart, ProductDB.saveCart]
      · simp [hq] at h

/-- Witness of C4 on a cart that already holds a line for the product. -/
theorem addToCart_true_upserts_witness :
    (c4Db.addToCart "a" 3).1 = true ∧
    ∃ product, c4Db.getProductById "a" = some product ∧
      (¬ NoLineFor c4Db.cart "a" →
        ∃ i line, IsFirstLine c4Db.cart "a" i line ∧
          (c4Db.addToCart "a" 3).2.cart =
            c4Db.cart.set i { line with quantity := line.quantity + 3 }) ∧
      (NoLineFor c4Db.cart "a" →
        (c4Db.addToCart "a" 3).2.cart =
          c4Db.cart ++ [{ id := product.id, name := product.name, price := product.price,
                          quantity := 3, images := product.images,
                          category := product.category }]) :=
  ⟨by decide, addToCart_true_upserts c4Db "a" 3 (by decide)⟩

/-! ## Cart methods: update and removal -/
/-- C7: for a known product with a line in the cart and a new quantity > 0,
`updateCartQuantity` fails and leaves the state unchanged when the new quantity
exceeds the stock; otherwise it succeeds and the cart is the same list with the
quantity of the product's (first) line set to exactly the new quantity. -/
theorem updateCartQuantity_pos (db : ProductDB) (productId : String) (newQty : Int)
    (product : Product) (hp : db.getProductById productId = some product)
    (hline : ¬ NoLineFor db.cart productId) (hpos : 0 < newQty) :
    (newQty > product.stock →
      db.updateCartQuantity productId newQty = (false, db)) ∧
    (newQty ≤ product.stock →
      (db.updateCartQuantity productId newQty).1 = true ∧
      ∃ i line, IsFirstLine db.cart productId i line ∧
        (db.updateCartQuantity productId newQty).2.cart =
          db.cart.set i { line with quantity := newQty }) := by
  obtain ⟨i, line, hfirst⟩ := exists_isFirstLine _ _ hline
  obtain ⟨hi, hf, hl⟩ := findIndex_of_isFirstLine _ _ _ _ hfirst
  have h0 : ¬ newQty ≤ 0 := by omega
  constructor
  · intro hgt
    have h1 : ¬ newQty ≤ product.stock := by omega
    simp [ProductDB.updateCartQuantity, hp, hf, h0, h1]
  · intro hle
    refine ⟨?_, i, line, hfirst, ?_⟩
    · simp [ProductDB.updateCartQuantity, hp, hf, h0, hle]
    · subst hl
      simp [ProductDB.updateCartQuantity, hp, hf, h0, hle, ProductDB.saveOriginalCart,
        ProductDB.saveCart]

/-- Witness of C7: product `a` has stock 5 and a line of quantity 2; new quantity 4. -/
theorem updateCartQuantity_pos_witness :
    c4Db.getProductById "a" = some (sampleProduct "a" 5) ∧
    ¬ NoLineFor c4Db.cart "a" ∧ (0 : Int) < 4 ∧
    ((4 : Int) > (sampleProduct "a" 5).stock →
      c4Db.updateCartQuantity "a" 4 = (false, c4Db)) ∧
    ((4 : Int) ≤ (sampleProduct "a" 5).stock →
      (c4Db.updateCartQuantity "a" 4).1 = true ∧
      ∃ i line, IsFirstLine c4Db.cart "a" i line ∧
        (c4Db.updateCartQuantity "a" 4).2.cart =
          c4Db.cart.set i { line with quantity := 4 }) :=
  ⟨by decide, by decide, by decide,
    updateCartQuantity_pos c4Db "a" 4 (sampleProduct "a" 5) (by decide) (by decide) (by decide)⟩

/-- C8: `removeFromCart` returns false and changes nothing when no line has the
id; otherwise it returns true and the cart is the previous cart with the first
line having that id deleted, the other lines kept in their order. -/
theorem removeFromCart_spec (db : ProductDB) (productId : String) :
    (NoLineFor db.cart productId → db.removeFromCart productId = (false, db)) ∧
    (¬ NoLineFor db.cart productId →
      (db.removeFromCart productId).1 = true ∧
      ∃ i line, IsFirstLine db.cart productId i line ∧
        (db.removeFromCart productId).2.cart = db.cart.eraseIdx i) := by
  constructor
  · intro hno
    have hf := (findIndex_none_of_noLineFor _ _).2 hno
    simp [ProductDB.removeFromCart, hf]
  · intro hsome
    obtain ⟨i, line, hfirst⟩ := exists_isFirstLine _ _ hsome
    obtain ⟨hi, hf, _⟩ := findIndex_of_isFirstLine _ _ _ _ hfirst
    refine ⟨?_, i, line, hfirst, ?_⟩
    · simp [ProductDB.removeFromCart, hf]
    · simp [ProductDB.removeFromCart, hf, ProductDB.saveOriginalCart, ProductDB.saveCart]

/-- Witness of C8: removing `a` from a cart holding lines for `b` and `a`. -/
theorem removeFromCart_spec_witness :
    ¬ NoLineFor c4Db.cart "a" ∧
    (c4Db.removeFromCart "a").1 = true ∧
    ∃ i line, IsFirstLine c4Db.cart "a" i line ∧
      (c4Db.removeFromCart "a").2.cart = c4Db.cart.eraseIdx i :=
  ⟨by decide, (removeFromCart_spec c4Db "a").2 (by decide)⟩

/-- C6 as stated fails: with a cart line for `a` but no product `a` in the
catalog, `updateCartQuantity("a", 0)` returns false and the line stays. -/
theorem updateCartQuantity_zero_unknown_product :
    ((sampleDb [] [sampleLine "a" 2]).updateCartQuantity "a" 0).1 = false ∧
    ((sampleDb [] [sampleLine "a" 2]).updateCartQuantity "a" 0).2.cart = [sampleLine "a" 2] := by
  decide

/-- C6, amended: `updateCartQuantity(id, 0)` succeeds when `id` is a known
product with a line in the cart, and then deletes the first line with that id
(leaving none when the cart held at most one); when the product is unknown or
the cart has no line for it, it returns false and changes nothing. -/
theorem updateCartQuantity_zero_spec (db : ProductDB) (id : String) :
    (∀ product, db.getProductById id = some product → ¬ NoLineFor db.cart id →
      (db.updateCartQuantity id 0).1 = true ∧
      (∃ i line, IsFirstLine db.cart id i line ∧
        (db.updateCartQuantity id 0).2.cart = db.cart.eraseIdx i) ∧
      (db.cart.countP (fun item => item.id == id) ≤ 1 →
        NoLineFor (db.updateCartQuantity id 0).2.cart id)) ∧
    ((db.getProductById id = none ∨ NoLineFor db.cart id) →
      db.updateCartQuantity id 0 = (false, db)) := by
  constructor
  · intro product hp hsome
    obtain ⟨i, line, hfirst⟩ := exists_isFirstLine _ _ hsome
    obtain ⟨hi, hf, _⟩ := findIndex_of_isFirstLine _ _ _ _ hfirst
    have hcart : (db.updateCartQuantity id 0).2.cart = db.cart.eraseIdx i := by
      simp [ProductDB.updateCartQuantity, hp, hf, ProductDB.saveOriginalCart,
        ProductDB.saveCart]
    refine ⟨?_, ⟨i, line, hfirst, hcart⟩, ?_⟩
    · simp [ProductDB.updateCartQuantity, hp, hf]
    · intro hc l hl
      rw [hcart] at hl
      have := eraseIdx_findIndex_all_false _ _ ⟨i, hi⟩ hf hc l hl
      simpa using this
  · intro h
    cases hp : db.getProductById id with
    | none => simp [ProductDB.updateCartQuantity, hp]
    | some product =>
      rcases h with h | h
      · simp [hp] at h
      · have hf := (findIndex_none_of_noLineFor _ _).2 h
        simp [ProductDB.updateCartQuantity, hp, hf]

/-- Witness of the amended C6: the only line for `a` is removed. -/
theorem updateCartQuantity_zero_spec_witness :
    c4Db.getProductById "a" = some (sampleProduct "a" 5) ∧ ¬ NoLineFor c4Db.cart "a" ∧
    c4Db.cart.countP (fun item => item.id == "a") ≤ 1 ∧
    (c4Db.updateCartQuantity "a" 0).1 = true ∧
    NoLineFor (c4Db.updateCartQuantity "a" 0).2.cart "a" :=
  have h := (updateCartQuantity_zero_spec c4Db "a").1 (sampleProduct "a" 5) (by decide) (by decide)
  ⟨by decide, by decide, by decide, h.1, h.2.2 (by decide)⟩

/-! ## Catalog lookups by position -/
theorem productIndex_spec (products : List Product) (id : String) (k : Nat)
    (h : productIndex products id = some k) :
    ∃ product, products[k]? = some product ∧ product.id = id := by
  unfold productIndex at h
  simp only [Option.map_eq_some'] at h
  obtain ⟨i, hi, rfl⟩ := h
  obtain ⟨h1, _⟩ := findIndex_some_spec _ _ _ hi
  exact ⟨products[i], by simp, by simpa using h1⟩

theorem findIndex_val_map {α β : Type} (f : α → β) (q : β → Bool) (xs : List α) :
    (findIndex (fun x => q (f x)) xs).map Fin.val = (findIndex q (xs.map f)).map Fin.val := by
  induction xs with
  | nil => simp [findIndex]
  | cons x xs ih =>
    by_cases hx : q (f x) = true
    · simp [findIndex, hx]
    · have key : ∀ {n : Nat} (o : Option (Fin n)),
          (o.map Fin.succ).map Fin.val = (o.map Fin.val).map (fun k => k + 1) := by
        intro n o
        cases o <;> simp
      simp only [findIndex, hx, Bool.false_eq_true, if_false, List.map_cons]
      rw [key, key, ih]

theorem productIndex_congr (ps qs : List Product) (id : String)
    (h : ps.map Product.id = qs.map Product.id) :
    productIndex ps id = productIndex qs id := by
  unfold productIndex
  rw [findIndex_val_map Product.id (fun x => x == id) ps,
    findIndex_val_map Product.id (fun x => x == id) qs, h]

theorem getProductById_eq_productIndex (db : ProductDB) (id : String) :
    db.getProductById id = (productIndex db.products id).bind (fun k => db.products[k]?) := by
  unfold ProductDB.getProductById productIndex
  rw [find?_eq_findIndex]
  cases findIndex (fun product => product.id == id) db.products with
  | none => rfl
  | some i => simp

theorem map_id_set_stock (ps : List Product) (i : Fin ps.length) (s : Int) :
    (ps.set i { (ps[i]) with stock := s }).map Product.id = ps.map Product.id := by
  apply List.ext_getElem?
  intro k
  simp only [List.map_set, List.getElem?_set, List.getElem?_map, List.length_map]
  split
  · next h => subst h; simp
  · rfl

/-! ## Checkout: stock stays non-negative -/
theorem checkout_eq_checkoutLoop (db : ProductDB) :
    (db.checkout).1 = (checkoutLoop db.cart db.products).1 ∧
    (db.checkout).2.products = (checkoutLoop db.cart db.products).2 ∧
    (db.checkout).2.cart = db.cart := by
  unfold ProductDB.checkout
  rcases checkoutLoop db.cart db.products with ⟨b, ps⟩
  cases b <;> simp [ProductDB.saveOriginalCart, ProductDB.saveProducts]

theorem checkoutLoop_stock_nonneg (cart : List CartItem) (products : List Product)
    (h : ∀ p ∈ products, 0 ≤ p.stock) :
    ∀ p ∈ (checkoutLoop cart products).2, 0 ≤ p.stock := by
  induction cart generalizing products with
  | nil => simpa [checkoutLoop] using h
  | cons cartItem rest ih =>
    cases hf : findIndex (fun product => product.id == cartItem.id) products with
    | none => simpa [checkoutLoop, hf] using h
    | some i =>
      by_cases hq : products[i.val].stock ≥ cartItem.quantity
      · simp only [checkoutLoop, hf, Fin.getElem_fin, hq, if_true]
        apply ih
        intro p hp
        rcases List.mem_or_eq_of_mem_set hp with hp | rfl
        · exact h p hp
        · simp only; omega
      · simpa [checkoutLoop, hf, hq] using h

/-- C10: if every product has stock >= 0 before `checkout()`, every product has
stock >= 0 after it, whatever the cart holds and whatever checkout returns. -/
theorem checkout_stock_nonneg (db : ProductDB) (h : ∀ p ∈ db.products, 0 ≤ p.stock) :
    ∀ p ∈ (db.checkout).2.products, 0 ≤ p.stock := by
  rw [(checkout_eq_checkoutLoop db).2.1]
  exact checkoutLoop_stock_nonneg db.cart db.products h

/-! ## Checkout: the commit -/
theorem checkoutLoop_commits (cart : List CartItem) (ps : List Product)
    (hd : (cart.map CartItem.id).Nodup)
    (hok : ∀ line ∈ cart, ∃ k product, productIndex ps line.id = some k ∧
      ps[k]? = some product ∧ product.stock ≥ line.quantity) :
    ∃ qs, checkoutLoop cart ps = (true, qs) ∧
      qs.map Product.id = ps.map Product.id ∧
      (∀ line ∈ cart, ∀ k product, productIndex ps line.id = some k → ps[k]? = some product →
        qs[k]? = some { product with stock := product.stock - line.quantity }) ∧
      (∀ k, (∀ line ∈ cart, productIndex ps line.id ≠ some k) → qs[k]? = ps[k]?) := by
  induction cart generalizing ps with
  | nil => exact ⟨ps, by simp [checkoutLoop]⟩
  | cons item rest ih =>
    obtain ⟨hnotin, hd'⟩ := List.nodup_cons.1 hd
    obtain ⟨i, prod, hidx, hget, hstock⟩ := hok item (by simp)
    have hidx' := hidx
    unfold productIndex at hidx'
    simp only [Option.map_eq_some'] at hidx'
    obtain ⟨fi, hfi, rfl⟩ := hidx'
    have hprod : ps[fi.val] = prod := by
      rw [List.getElem?_eq_getElem fi.isLt] at hget
      exact Option.some.inj hget
    -- the catalog after the decrement for `item`
    have hids := map_id_set_stock ps fi (ps[fi].stock - item.quantity)
    have hne : ∀ line ∈ rest, ∀ k, productIndex ps line.id = some k → k ≠ fi.val := by
      intro line hl k hk hkfi
      subst hkfi
      obtain ⟨p1, hp1, hid1⟩ := productIndex_spec _ _ _ hk
      obtain ⟨p2, hp2, hid2⟩ := productIndex_spec _ _ _ hidx
      rw [hp1] at hp2
      have : line.id = item.id := by
        rw [← hid1, ← hid2, Option.some.inj hp2]
      exact hnotin (by rw [← this]; exact List.mem_map_of_mem _ hl)
    obtain ⟨qs, hloop, hqids, hdec, hkeep⟩ := ih
      (ps.set fi { (ps[fi]) with stock := ps[fi].stock - item.quantity }) hd' (by
        intro line hl
        obtain ⟨k, product, hk, hgetk, hst⟩ := hok line (by simp [hl])
        refine ⟨k, product, ?_, ?_, hst⟩
        · rw [productIndex_congr _ _ _ hids]; exact hk
        · rw [List.getElem?_set_ne (Ne.symm (hne line hl k hk))]; exact hgetk)
    refine ⟨qs, ?_, hqids.trans hids, ?_, ?_⟩
    · have hq : ps[fi.val].stock ≥ item.quantity := by rw [hprod]; exact hstock
      simp only [checkoutLoop, hfi, Fin.getElem_fin, hq, if_true]
      simpa using hloop
    · intro line hl k product hk hgetk
      simp only [List.mem_cons] at hl
      rcases hl with rfl | hl
      · -- the line just committed: no later line resolves to its product
        rw [hidx] at hk
        have hk' : fi.val = k := Option.some.inj hk
        subst hk'
        rw [hget] at hgetk
        have hpp : prod = product := Option.some.inj hgetk
        subst hpp
        rw [hkeep fi.val (by
          intro l hl hcontra
          rw [productIndex_congr _ _ _ hids] at hcontra
          exact hne l hl _ hcontra rfl)]
        simp [List.getElem?_set, hprod]
      · have hkne := hne line hl k hk
        apply hdec line hl k product
        · rw [productIndex_congr _ _ _ hids]; exact hk
        · rw [List.getElem?_set_ne (Ne.symm hkne)]; exact hgetk
    · intro k hk
      have hkfi : fi.val ≠ k := by
        intro h
        exact hk item (by simp) (by rw [hidx, h])
      rw [hkeep k (by
        intro l hl
        rw [productIndex_congr _ _ _ hids]
        exact hk l (by simp [hl]))]
      exact List.getElem?_set_ne hkfi

/-- C2: when the cart lines have pairwise distinct product ids and each resolves
to a product with stock >= its quantity, `checkout()` returns true, the product
each line resolves to has its stock lowered by the line quantity (nothing else
of it changes), and every catalog entry that no line resolves to, in particular
every product whose id the cart does not mention, is unchanged. -/
theorem checkout_commits (db : ProductDB) (hd : (db.cart.map CartItem.id).Nodup)
    (hok : ∀ line ∈ db.cart, ∃ product,
      db.getProductById line.id = some product ∧ product.stock ≥ line.quantity) :
    (db.checkout).1 = true ∧
    (∀ line ∈ db.cart, ∀ product, db.getProductById line.id = some product →
      (db.checkout).2.getProductById line.id =
        some { product with stock := product.stock - line.quantity }) ∧
    (∀ (k : Nat) (product : Product), db.products[k]? = some product →
      NoLineFor db.cart product.id →
      (db.checkout).2.products[k]? = some product) ∧
    (∀ (k : Nat) (product : Product), db.products[k]? = some product →
      (∀ line ∈ db.cart, productIndex db.products line.id ≠ some k) →
      (db.checkout).2.products[k]? = some product) ∧
    (db.checkout).2.products.length = db.products.length := by
  obtain ⟨qs, hloop, hids, hdec, hkeep⟩ := checkoutLoop_commits db.cart db.products hd (by
    intro line hl
    obtain ⟨product, hp, hst⟩ := hok line hl
    rw [getProductById_eq_productIndex] at hp
    cases hk : productIndex db.products line.id with
    | none => simp [hk] at hp
    | some k => exact ⟨k, product, rfl, by simpa [hk] using hp, hst⟩)
  obtain ⟨h1, h2, _⟩ := checkout_eq_checkoutLoop db
  rw [hloop] at h1 h2
  simp only at h1 h2
  have hstrong : ∀ k product, db.products[k]? = some product →
      (∀ line ∈ db.cart, productIndex db.products line.id ≠ some k) →
      (db.checkout).2.products[k]? = some product := by
    intro k product hk hno
    rw [h2, hkeep k hno]; exact hk
  refine ⟨h1, ?_, ?_, hstrong, ?_⟩
  · intro line hl product hp
    rw [getProductById_eq_productIndex] at hp ⊢
    rw [h2, productIndex_congr _ _ _ hids]
    cases hk : productIndex db.products line.id with
    | none => simp [hk] at hp
    | some k =>
      simp only [hk, Option.some_bind] at hp ⊢
      exact hdec line hl k product hk hp
  · intro k product hk hno
    apply hstrong k product hk
    intro line hl hidx
    obtain ⟨p, hp, hid⟩ := productIndex_spec _ _ _ hidx
    rw [hk] at hp
    exact hno line hl (by rw [← hid, Option.some.inj hp])
  · rw [h2]
    have := congrArg List.length hids
    simpa using this

/-- Witness of C2: stocks 10 and 1 with quantities 2 and 1 end at 8 and 0, and
the product the cart does not mention keeps its stock of 7. -/
theorem checkout_commits_witness :
    (committedDb.cart.map CartItem.id).Nodup ∧
    (∀ line ∈ committedDb.cart, ∃ product,
      committedDb.getProductById line.id = some product ∧ product.stock ≥ line.quantity) ∧
    (committedDb.checkout).1 = true ∧
    (committedDb.checkout).2.products.map Product.stock = [8, 7, 0] ∧
    (committedDb.checkout).2.products.length = committedDb.products.length :=
  have h := checkout_commits committedDb (by decide) (by decide)
  ⟨by decide, by decide, h.1, by decide, h.2.2.2.2⟩

/-- C1 fails on the code: with L1 (qty 5, stock 5) and L2 (qty 3, stock 2),
`checkout()` returns false, but the stock of L1's product has already dropped
from 5 to 0 when the loop breaks at L2. -/
theorem checkout_rejected_after_partial_decrement :
    rejectedDb.products.map Product.stock = [5, 2] ∧
    (rejectedDb.checkout).1 = false ∧
    (rejectedDb.checkout).2.products.map Product.stock = [0, 2] := by
  decide

/-- Witness of C10 on the rejected checkout, where one stock drops to 0. -/
theorem checkout_stock_nonneg_witness :
    (∀ p ∈ rejectedDb.products, 0 ≤ p.stock) ∧
    ∀ p ∈ (rejectedDb.checkout).2.products, 0 ≤ p.stock :=
  ⟨by decide, checkout_stock_nonneg rejectedDb (by decide)⟩

/-! ## Cart methods: how each call changes the cart -/
theorem addToCart_products (db : ProductDB) (productId : String) (quantity : Int) :
    (db.addToCart productId quantity).2.products = db.products := by
  unfold ProductDB.addToCart
  cases db.getProductById productId with
  | none => rfl
  | some product =>
    cases findIndex (fun item => item.id == productId) db.cart with
    | none =>
      by_cases hq : quantity ≤ product.stock <;>
        simp [hq, ProductDB.saveOriginalCart, ProductDB.saveCart]
    | some i =>
      by_cases hq : db.cart[i.val].quantity + quantity ≤ product.stock <;>
        simp [hq, ProductDB.saveOriginalCart, ProductDB.saveCart]

theorem updateCartQuantity_products (db : ProductDB) (productId : String) (quantity : Int) :
    (db.updateCartQuantity productId quantity).2.products = db.products := by
  unfold ProductDB.updateCartQuantity
  cases db.getProductById productId with
  | none => rfl
  | some product =>
    cases findIndex (fun item => item.id == productId) db.cart with
    | none => rfl
    | some i =>
      by_cases h0 : quantity ≤ 0
      · simp [h0, ProductDB.saveOriginalCart, ProductDB.saveCart]
      · by_cases hq : quantity ≤ product.stock <;>
          simp [h0, hq, ProductDB.saveOriginalCart, ProductDB.saveCart]

/-- The two ways `addToCart` changes the cart; a failed call changes nothing. -/
theorem addToCart_cart_cases (db : ProductDB) (productId : String) (quantity : Int) :
    ((db.addToCart productId quantity).1 = false ∧
      (db.addToCart productId quantity).2.cart = db.cart) ∨
    (∃ product, db.getProductById productId = some product ∧
      (db.addToCart productId quantity).1 = true ∧
      ((∃ i : Fin db.cart.length,
          findIndex (fun item => item.id == productId) db.cart = some i ∧
          db.cart[i.val].quantity + quantity ≤ product.stock ∧
          (db.addToCart productId quantity).2.cart =
            db.cart.set i { (db.cart[i.val]) with
              quantity := db.cart[i.val].quantity + quantity }) ∨
       (NoLineFor db.cart productId ∧ quantity ≤ product.stock ∧
          ∃ item : CartItem, item.id = product.id ∧ item.quantity = quantity ∧
            (db.addToCart productId quantity).2.cart = db.cart ++ [item]))) := by
  unfold ProductDB.addToCart
  cases hp : db.getProductById productId with
  | none => left; exact ⟨rfl, rfl⟩
  | some product =>
    cases hf : findIndex (fun item => item.id == productId) db.cart with
    | none =>
      by_cases hq : quantity ≤ product.stock
      · right
        refine ⟨product, rfl, by simp [hq], Or.inr ⟨(findIndex_none_of_noLineFor _ _).1 hf, hq, ?_⟩⟩
        exact ⟨{ id := product.id, name := product.name, price := product.price,
                 quantity := quantity, images := product.images,
                 category := product.category }, rfl, rfl,
          by simp [hq, ProductDB.saveOriginalCart, ProductDB.saveCart]⟩
      · left; simp [hq]
    | some i =>
      by_cases hq : db.cart[i.val].quantity + quantity ≤ product.stock
      · right
        refine ⟨product, rfl, by simp [hq], Or.inl ⟨i, rfl, hq, ?_⟩⟩
        simp [hq, ProductDB.saveOriginalCart, ProductDB.saveCart]
      · left; simp [hq]

/-- The two ways `updateCartQuantity` changes the cart; a failed call changes nothing. -/
theorem updateCartQuantity_cart_cases (db : ProductDB) (productId : String) (quantity : Int) :
    ((db.updateCartQuantity productId quantity).1 = false ∧
      (db.updateCartQuantity productId quantity).2.cart = db.cart) ∨
    (∃ product, db.getProductById productId = some product ∧
      (db.updateCartQuantity productId quantity).1 = true ∧
      ∃ i : Fin db.cart.length,
        findIndex (fun item => item.id == productId) db.cart = some i ∧
        ((quantity ≤ 0 ∧
            (db.updateCartQuantity productId quantity).2.cart = db.cart.eraseIdx i) ∨
         (0 < quantity ∧ quantity ≤ product.stock ∧
            (db.updateCartQuantity productId quantity).2.cart =
              db.cart.set i { (db.cart[i.val]) with quantity := quantity }))) := by
  unfold ProductDB.updateCartQuantity
  cases hp : db.getProductById productId with
  | none => left; exact ⟨rfl, rfl⟩
  | some product =>
    cases hf : findIndex (fun item => item.id == productId) db.cart with
    | none => left; exact ⟨rfl, rfl⟩
    | some i =>
      by_cases h0 : quantity ≤ 0
      · right
        refine ⟨product, rfl, by simp [h0], i, rfl, Or.inl ⟨h0, ?_⟩⟩
        simp [h0, ProductDB.saveOriginalCart, ProductDB.saveCart]
      · by_cases hq : quantity ≤ product.stock
        · right
          refine ⟨product, rfl, by simp [h0, hq], i, rfl, Or.inr ⟨by omega, hq, ?_⟩⟩
          simp [h0, hq, ProductDB.saveOriginalCart, ProductDB.saveCart]
        · left; simp [h0, hq]

theorem removeFromCart_cart_cases (db : ProductDB) (productId : String) :
    (db.removeFromCart productId).2.cart = db.cart ∨
    ∃ i : Fin db.cart.length,
      findIndex (fun item => item.id == productId) db.cart = some i ∧
      (db.removeFromCart productId).2.cart = db.cart.eraseIdx i := by
  unfold ProductDB.removeFromCart
  cases hf : findIndex (fun item => item.id == productId) db.cart with
  | none => left; rfl
  | some i =>
    right
    exact ⟨i, rfl, by simp [ProductDB.saveOriginalCart, ProductDB.saveCart]⟩

/-! ## Cart lines keep a positive quantity -/
theorem applyOp_quantity_pos (db : ProductDB) (op : CartOp)
    (hinv : ∀ line ∈ db.cart, 0 < line.quantity)
    (hop : ∀ id q, op = CartOp.add id q → 0 < q) :
    ∀ line ∈ (db.applyOp op).cart, 0 < line.quantity := by
  cases op with
  | add productId quantity =>
    have hq : 0 < quantity := hop productId quantity rfl
    simp only [ProductDB.applyOp]
    rcases addToCart_cart_cases db productId quantity with ⟨_, h⟩ | ⟨product, _, _, h | h⟩
    · rw [h]; exact hinv
    · obtain ⟨i, _, _, hcart⟩ := h
      rw [hcart]
      intro line hl
      rcases List.mem_or_eq_of_mem_set hl with hl | rfl
      · exact hinv line hl
      · have := hinv db.cart[i.val] (List.getElem_mem _)
        simp only
        omega
    · obtain ⟨_, _, item, _, hitem, hcart⟩ := h
      rw [hcart]
      intro line hl
      simp only [List.mem_append, List.mem_singleton] at hl
      rcases hl with hl | rfl
      · exact hinv line hl
      · rw [hitem]; exact hq
  | update productId quantity =>
    simp only [ProductDB.applyOp]
    rcases updateCartQuantity_cart_cases db productId quantity with
      ⟨_, h⟩ | ⟨product, _, _, i, _, h | h⟩
    · rw [h]; exact hinv
    · rw [h.2]
      intro line hl
      exact hinv line (List.mem_of_mem_eraseIdx hl)
    · obtain ⟨hpos, _, hcart⟩ := h
      rw [hcart]
      intro line hl
      rcases List.mem_or_eq_of_mem_set hl with hl | rfl
      · exact hinv line hl
      · exact hpos
  | remove productId =>
    simp only [ProductDB.applyOp]
    rcases removeFromCart_cart_cases db productId with h | ⟨i, _, h⟩
    · rw [h]; exact hinv
    · rw [h]
      intro line hl
      exact hinv line (List.mem_of_mem_eraseIdx hl)
  | clear =>
    simp [ProductDB.applyOp, ProductDB.clearCart, ProductDB.saveOriginalCart,
      ProductDB.saveCart]

theorem runOps_preserves_pos (ops : List CartOp) (db : ProductDB)
    (hinv : ∀ line ∈ db.cart, 0 < line.quantity)
    (hadd : ∀ id q, CartOp.add id q ∈ ops → 0 < q) :
    ∀ line ∈ (db.runOps ops).cart, 0 < line.quantity := by
  induction ops generalizing db with
  | nil => simpa [ProductDB.runOps] using hinv
  | cons op ops ih =>
    have hstep := applyOp_quantity_pos db op hinv (fun id q h => hadd id q (by simp [h]))
    have := ih (db.applyOp op) hstep (fun id q h => hadd id q (by simp [h]))
    simpa [ProductDB.runOps] using this

/-- C9 as stated fails: from the empty cart, `addToCart("a", 0)` on a product
with stock 5 succeeds and stores a line of quantity 0. -/
theorem addToCart_zero_stores_line :
    ((sampleDb [sampleProduct "a" 5] []).addToCart "a" 0).1 = true ∧
    ¬ ∀ line ∈ ((sampleDb [sampleProduct "a" 5] []).runOps [CartOp.add "a" 0]).cart,
        0 < line.quantity := by
  decide

/-- C9, amended: starting from an empty cart, after any sequence of `addToCart`
calls with positive quantities and of `updateCartQuantity` (any integer
quantity), `removeFromCart` and `clearCart` calls, every line stored in the
cart has quantity > 0. -/
theorem runOps_quantity_pos (db : ProductDB) (ops : List CartOp) (hempty : db.cart = [])
    (hadd : ∀ id q, CartOp.add id q ∈ ops → 0 < q) :
    ∀ line ∈ (db.runOps ops).cart, 0 < line.quantity :=
  runOps_preserves_pos ops db (by simp [hempty]) hadd

/-- Witness of the amended C9: two adds, an update to a negative quantity, an
add of another product and a removal. -/
theorem runOps_quantity_pos_witness :
    (sampleDb [sampleProduct "a" 5, sampleProduct "b" 3] []).cart = [] ∧
    (∀ id q, CartOp.add id q ∈
        [CartOp.add "a" 2, CartOp.add "b" 1, CartOp.update "a" (-4), CartOp.add "a" 5,
          CartOp.remove "b"] → 0 < q) ∧
    ∀ line ∈ ((sampleDb [sampleProduct "a" 5, sampleProduct "b" 3] []).runOps
        [CartOp.add "a" 2, CartOp.add "b" 1, CartOp.update "a" (-4), CartOp.add "a" 5,
          CartOp.remove "b"]).cart, 0 < line.quantity :=
  have hadd : ∀ id q, CartOp.add id q ∈
      [CartOp.add "a" 2, CartOp.add "b" 1, CartOp.update "a" (-4), CartOp.add "a" 5,
        CartOp.remove "b"] → 0 < q := by
    intro id q h
    simp at h
    rcases h with ⟨_, rfl⟩ | ⟨_, rfl⟩ | ⟨_, rfl⟩ <;> decide
  ⟨rfl, hadd, runOps_quantity_pos _ _ rfl hadd⟩

/-! ## Lines of an updated cart -/
theorem mem_set_cases {α : Type} (xs : List α) (i : Nat) (x l : α) (h : l ∈ xs.set i x) :
    l = x ∨ l ∈ xs.eraseIdx i := by
  obtain ⟨k, hk⟩ := List.mem_iff_getElem?.1 h
  by_cases hik : i = k
  · subst hik
    rw [List.getElem?_set] at hk
    simp only [if_true] at hk
    split at hk
    · left; exact (Option.some.inj hk).symm
    · simp at hk
  · rw [List.getElem?_set_ne hik] at hk
    right
    exact List.mem_eraseIdx_iff_getElem?.2 ⟨k, Ne.symm hik, hk⟩

theorem map_id_set_quantity (cart : List CartItem) (i : Fin cart.length) (q : Int) :
    (cart.set i { (cart[i]) with quantity := q }).map CartItem.id = cart.map CartItem.id := by
  apply List.ext_getElem?
  intro k
  simp only [List.map_set, List.getElem?_set, List.getElem?_map, List.length_map]
  split
  · next h => subst h; simp
  · rfl

/-- After the quantity of the first line for `productId` is overwritten, that
line is still the first line for `productId`. -/
theorem isFirstLine_set_quantity (cart : List CartItem) (productId : String)
    (i : Fin cart.length) (q : Int)
    (hf : findIndex (fun item => item.id == productId) cart = some i)
    (j : Nat) (line : CartItem)
    (h : IsFirstLine (cart.set i { (cart[i]) with quantity := q }) productId j line) :
    line.quantity = q := by
  obtain ⟨hj, hfj, hl⟩ := findIndex_of_isFirstLine _ _ _ _ h
  have hcongr := findIndex_val_map CartItem.id (fun x => x == productId)
    (cart.set i { (cart[i]) with quantity := q })
  rw [map_id_set_quantity, ← findIndex_val_map CartItem.id (fun x => x == productId) cart,
    hfj, hf] at hcongr
  simp only [Option.map_some', Option.some.injEq] at hcongr
  subst hcongr
  rw [← hl]
  simp

/-! ## Cart quantities against the stock -/
/-- C5 as stated fails: the cart holds two lines for `a` (quantities 1 and 100,
stock 5); `updateCartQuantity("a", 0)` returns true and deletes the first line
only, so the cart still holds a line for `a`, of quantity 100 > 5. -/
theorem updateCartQuantity_zero_leaves_second_line :
    (twoLinesDb.updateCartQuantity "a" 0).1 = true ∧
    (twoLinesDb.updateCartQuantity "a" 0).2.getProductById "a" = some (sampleProduct "a" 5) ∧
    (twoLinesDb.updateCartQuantity "a" 0).2.cart = [sampleLine "a" 100] ∧
    ¬ ((sampleLine "a" 100).quantity ≤ (sampleProduct "a" 5).stock) := by
  decide

/-- C5, amended: after a successful `addToCart`, and after a successful
`updateCartQuantity` with quantity > 0, the first line for the product has a
quantity <= the product's stock; and when the cart held at most one line for
the product before the call, after any successful `addToCart` or
`updateCartQuantity` every line for the product still in the cart has a
quantity <= the product's stock. -/
theorem quantity_le_stock_after_success (db : ProductDB) (productId : String)
    (quantity : Int) :
    (∀ product, (db.addToCart productId quantity).1 = true →
      (db.addToCart productId quantity).2.getProductById productId = some product →
      (∀ i line, IsFirstLine (db.addToCart productId quantity).2.cart productId i line →
        line.quantity ≤ product.stock) ∧
      (db.cart.countP (fun item => item.id == productId) ≤ 1 →
        ∀ line ∈ (db.addToCart productId quantity).2.cart, line.id = productId →
          line.quantity ≤ product.stock)) ∧
    (∀ product, (db.updateCartQuantity productId quantity).1 = true →
      (db.updateCartQuantity productId quantity).2.getProductById productId = some product →
      (0 < quantity →
        ∀ i line, IsFirstLine (db.updateCartQuantity productId quantity).2.cart productId i line →
          line.quantity ≤ product.stock) ∧
      (db.cart.countP (fun item => item.id == productId) ≤ 1 →
        ∀ line ∈ (db.updateCartQuantity productId quantity).2.cart, line.id = productId →
          line.quantity ≤ product.stock)) := by
  have hmem : ∀ (cart : List CartItem) (i : Fin cart.length) (q : Int),
      findIndex (fun item => item.id == productId) cart = some i →
      cart.countP (fun item => item.id == productId) ≤ 1 →
      ∀ line ∈ cart.set i { (cart[i]) with quantity := q }, line.id = productId →
        line.quantity = q := by
    intro cart i q hf hc line hl hid
    rcases mem_set_cases _ _ _ _ hl with rfl | hl
    · rfl
    · have := eraseIdx_findIndex_all_false _ _ i hf hc line hl
      simp [hid] at this
  constructor
  · intro product hsucc hprod
    have hprod' : db.getProductById productId = some product := by
      unfold ProductDB.getProductById at hprod ⊢
      rw [addToCart_products] at hprod
      exact hprod
    rcases addToCart_cart_cases db productId quantity with ⟨hfalse, _⟩ | ⟨p, hp, _, h | h⟩
    · rw [hfalse] at hsucc
      exact absurd hsucc (by decide)
    · obtain ⟨i, hf, hle, hcart⟩ := h
      rw [hprod'] at hp
      have hpp := Option.some.inj hp
      subst hpp
      rw [hcart]
      constructor
      · intro j line hfirst
        rw [isFirstLine_set_quantity _ _ i _ hf j line hfirst]
        exact hle
      · intro hc line hl hid
        rw [hmem _ i _ hf hc line hl hid]
        exact hle
    · obtain ⟨hno, hle, item, _, hq, hcart⟩ := h
      rw [hprod'] at hp
      have hpp := Option.some.inj hp
      subst hpp
      rw [hcart]
      have hall : ∀ line ∈ db.cart ++ [item], line.id = productId →
          line.quantity ≤ product.stock := by
        intro line hl hid
        simp only [List.mem_append, List.mem_singleton] at hl
        rcases hl with hl | rfl
        · exact absurd hid (hno line hl)
        · rw [hq]; exact hle
      constructor
      · intro j line hfirst
        obtain ⟨h1, h2, _⟩ := hfirst
        exact hall line (List.mem_iff_getElem?.2 ⟨j, h1⟩) h2
      · intro _
        exact hall
  · intro product hsucc hprod
    have hprod' : db.getProductById productId = some product := by
      unfold ProductDB.getProductById at hprod ⊢
      rw [updateCartQuantity_products] at hprod
      exact hprod
    rcases updateCartQuantity_cart_cases db productId quantity with
      ⟨hfalse, _⟩ | ⟨p, hp, _, i, hf, h | h⟩
    · rw [hfalse] at hsucc
      exact absurd hsucc (by decide)
    · obtain ⟨h0, hcart⟩ := h
      rw [hcart]
      constructor
      · intro hpos
        omega
      · intro hc line hl hid
        have := eraseIdx_findIndex_all_false _ _ i hf hc line hl
        simp [hid] at this
    · obtain ⟨hpos, hle, hcart⟩ := h
      rw [hprod'] at hp
      have hpp := Option.some.inj hp
      subst hpp
      rw [hcart]
      constructor
      · intro _ j line hfirst
        rw [isFirstLine_set_quantity _ _ i _ hf j line hfirst]
        exact hle
      · intro hc line hl hid
        rw [hmem _ i _ hf hc line hl hid]
        exact hle

/-- Witness of the amended C5: adding 3 units of `a` (stock 5) to a cart that
holds one line for `a`, of quantity 2. -/
theorem quantity_le_stock_after_success_witness :
    (c4Db.addToCart "a" 3).1 = true ∧
    (c4Db.addToCart "a" 3).2.getProductById "a" = some (sampleProduct "a" 5) ∧
    c4Db.cart.countP (fun item => item.id == "a") ≤ 1 ∧
    ∀ line ∈ (c4Db.addToCart "a" 3).2.cart, line.id = "a" →
      line.quantity ≤ (sampleProduct "a" 5).stock :=
  ⟨by decide, by decide, by decide,
    ((quantity_le_stock_after_success c4Db "a" 3).1 (sampleProduct "a" 5) (by decide)
      (by decide)).2 (by decide)⟩

/-! ## Checkout: stock never grows without negative quantities -/
theorem applyOp_quantity_nonneg (db : ProductDB) (op : CartOp)
    (hinv : ∀ line ∈ db.cart, 0 ≤ line.quantity)
    (hop : ∀ id q, op = CartOp.add id q → 0 ≤ q) :
    ∀ line ∈ (db.applyOp op).cart, 0 ≤ line.quantity := by
  cases op with
  | add productId quantity =>
    have hq : 0 ≤ quantity := hop productId quantity rfl
    simp only [ProductDB.applyOp]
    rcases addToCart_cart_cases db productId quantity with ⟨_, h⟩ | ⟨product, _, _, h | h⟩
    · rw [h]; exact hinv
    · obtain ⟨i, _, _, hcart⟩ := h
      rw [hcart]
      intro line hl
      rcases List.mem_or_eq_of_mem_set hl with hl | rfl
      · exact hinv line hl
      · have := hinv db.cart[i.val] (List.getElem_mem _)
        simp only
        omega
    · obtain ⟨_, _, item, _, hitem, hcart⟩ := h
      rw [hcart]
      intro line hl
      simp only [List.mem_append, List.mem_singleton] at hl
      rcases hl with hl | rfl
      · exact hinv line hl
      · rw [hitem]; exact hq
  | update productId quantity =>
    simp only [ProductDB.applyOp]
    rcases updateCartQuantity_cart_cases db productId quantity with
      ⟨_, h⟩ | ⟨product, _, _, i, _, h | h⟩
    · rw [h]; exact hinv
    · rw [h.2]
      intro line hl
      exact hinv line (List.mem_of_mem_eraseIdx hl)
    · obtain ⟨hpos, _, hcart⟩ := h
      rw [hcart]
      intro line hl
      rcases List.mem_or_eq_of_mem_set hl with hl | rfl
      · exact hinv line hl
      · exact le_of_lt hpos
  | remove productId =>
    simp only [ProductDB.applyOp]
    rcases removeFromCart_cart_cases db productId with h | ⟨i, _, h⟩
    · rw [h]; exact hinv
    · rw [h]
      intro line hl
      exact hinv line (List.mem_of_mem_eraseIdx hl)
  | clear =>
    simp [ProductDB.applyOp, ProductDB.clearCart, ProductDB.saveOriginalCart,
      ProductDB.saveCart]

theorem runOps_preserves_nonneg (ops : List CartOp) (db : ProductDB)
    (hinv : ∀ line ∈ db.cart, 0 ≤ line.quantity)
    (hadd : ∀ id q, CartOp.add id q ∈ ops → 0 ≤ q) :
    ∀ line ∈ (db.runOps ops).cart, 0 ≤ line.quantity := by
  induction ops generalizing db with
  | nil => simpa [ProductDB.runOps] using hinv
  | cons op ops ih =>
    have hstep := applyOp_quantity_nonneg db op hinv (fun id q h => hadd id q (by simp [h]))
    have := ih (db.applyOp op) hstep (fun id q h => hadd id q (by simp [h]))
    simpa [ProductDB.runOps] using this

theorem applyOp_products (db : ProductDB) (op : CartOp) :
    (db.applyOp op).products = db.products := by
  cases op with
  | add productId quantity => exact addToCart_products db productId quantity
  | update productId quantity => exact updateCartQuantity_products db productId quantity
  | remove productId =>
    simp only [ProductDB.applyOp, ProductDB.removeFromCart]
    cases findIndex (fun item => item.id == productId) db.cart <;>
      simp [ProductDB.saveOriginalCart, ProductDB.saveCart]
  | clear =>
    simp [ProductDB.applyOp, ProductDB.clearCart, ProductDB.saveOriginalCart,
      ProductDB.saveCart]

theorem runOps_products (ops : List CartOp) (db : ProductDB) :
    (db.runOps ops).products = db.products := by
  induction ops generalizing db with
  | nil => rfl
  | cons op ops ih =>
    have := ih (db.applyOp op)
    simp only [ProductDB.runOps, List.foldl_cons] at this ⊢
    rw [this, applyOp_products]

/-- With no negative quantity in the cart, the checkout loop leaves every
catalog position with the same id and a stock that has not grown. -/
theorem checkoutLoop_stock_le (cart : List CartItem) (ps : List Product)
    (hq : ∀ line ∈ cart, 0 ≤ line.quantity) :
    ∀ (k : Nat) (p : Product), ps[k]? = some p →
      ∃ q, (checkoutLoop cart ps).2[k]? = some q ∧ q.stock ≤ p.stock ∧ q.id = p.id := by
  induction cart generalizing ps with
  | nil =>
    intro k p hk
    exact ⟨p, by simpa [checkoutLoop] using hk, le_refl _, rfl⟩
  | cons item rest ih =>
    intro k p hk
    cases hf : findIndex (fun product => product.id == item.id) ps with
    | none => exact ⟨p, by simpa [checkoutLoop, hf] using hk, le_refl _, rfl⟩
    | some i =>
      by_cases hst : ps[i.val].stock ≥ item.quantity
      · simp only [checkoutLoop, hf, Fin.getElem_fin, hst, if_true]
        have hitem : 0 ≤ item.quantity := hq item (by simp)
        by_cases hik : i.val = k
        · have hp : ps[i.val] = p := by
            have h1 : ps[i.val]? = some ps[i.val] := List.getElem?_eq_getElem i.isLt
            have h2 : ps[i.val]? = some p := by rw [hik]; exact hk
            rw [h1] at h2
            exact Option.some.inj h2
          obtain ⟨q, hq1, hq2, hq3⟩ := ih
            (ps.set i.val { (ps[i.val]) with stock := ps[i.val].stock - item.quantity })
            (fun l hl => hq l (by simp [hl])) k
            { (ps[i.val]) with stock := ps[i.val].stock - item.quantity }
            (by rw [← hik]; simp)
          refine ⟨q, hq1, ?_, ?_⟩
          · rw [← hp]
            simp only at hq2
            omega
          · rw [hq3, ← hp]
        · exact ih _ (fun l hl => hq l (by simp [hl])) k p
            (by rw [List.getElem?_set_ne hik]; exact hk)
      · exact ⟨p, by simpa [checkoutLoop, hf, hst] using hk, le_refl _, rfl⟩

/-! ## Checkout: monotone stock, untouched cart, second call, validation of showBill -/
/-- C11 as stated fails: from the empty cart, `addToCart("a", -3)` succeeds
(-3 <= stock 5) and stores a line of quantity -3; `checkout()` then raises the
stock of `a` from 5 to 8. -/
theorem checkout_raises_stock_after_negative_add :
    (emptyCartDb.runOps [CartOp.add "a" (-3)]).products.map Product.stock = [5] ∧
    ((emptyCartDb.runOps [CartOp.add "a" (-3)]).checkout).1 = true ∧
    ((emptyCartDb.runOps [CartOp.add "a" (-3)]).checkout).2.products.map Product.stock
      = [8] := by
  decide

/-- C11, amended: for every cart reachable from the empty cart through
`addToCart` calls with quantity >= 0 and arbitrary `updateCartQuantity`,
`removeFromCart` and `clearCart` calls, `checkout()` leaves every catalog entry
in place with a stock that is not greater than before the call. -/
theorem checkout_stock_le (db : ProductDB) (ops : List CartOp) (hempty : db.cart = [])
    (hadd : ∀ id q, CartOp.add id q ∈ ops → 0 ≤ q) :
    ∀ (k : Nat) (p : Product), (db.runOps ops).products[k]? = some p →
      ∃ q, ((db.runOps ops).checkout).2.products[k]? = some q ∧
        q.stock ≤ p.stock ∧ q.id = p.id := by
  intro k p hk
  rw [(checkout_eq_checkoutLoop (db.runOps ops)).2.1]
  exact checkoutLoop_stock_le _ _
    (runOps_preserves_nonneg ops db (by simp [hempty]) hadd) k p hk

/-- Witness of the amended C11: two adds and an update, then the checkout
lowers the stock of `a` from 5 to 2. -/
theorem checkout_stock_le_witness :
    emptyCartDb.cart = [] ∧
    (emptyCartDb.runOps [CartOp.add "a" 1, CartOp.add "a" 0, CartOp.update "a" 3]).products[0]?
      = some (sampleProduct "a" 5) ∧
    ∃ q, ((emptyCartDb.runOps
        [CartOp.add "a" 1, CartOp.add "a" 0, CartOp.update "a" 3]).checkout).2.products[0]?
          = some q ∧
      q.stock ≤ (sampleProduct "a" 5).stock ∧ q.id = (sampleProduct "a" 5).id :=
  have hadd : ∀ id q, CartOp.add id q ∈
      [CartOp.add "a" 1, CartOp.add "a" 0, CartOp.update "a" 3] → 0 ≤ q := by
    intro id q h
    simp at h
    rcases h with ⟨_, rfl⟩ | ⟨_, rfl⟩ <;> decide
  ⟨rfl, by decide, checkout_stock_le emptyCartDb _ rfl hadd 0 (sampleProduct "a" 5) (by decide)⟩

/-- C12: `checkout()` never modifies the cart: after the call the cart is the
same list of lines (same quantities, same order), whether it returned true or
false. -/
theorem checkout_keeps_cart (db : ProductDB) : (db.checkout).2.cart = db.cart :=
  (checkout_eq_checkoutLoop db).2.2

/-- C13: for a non-empty cart with positive quantities on which `checkout()`
has returned true, leaving no stock for the products of the cart, a second
`checkout()` on the resulting state returns false. -/
theorem second_checkout_rejected (db : ProductDB) (hne : db.cart ≠ [])
    (hpos : ∀ line ∈ db.cart, 0 < line.quantity)
    (_hfirst : (db.checkout).1 = true)
    (hnone : ∀ line ∈ db.cart, ∀ product,
      (db.checkout).2.getProductById line.id = some product → product.stock = 0) :
    ((db.checkout).2.checkout).1 = false := by
  have hcart := (checkout_eq_checkoutLoop db).2.2
  rw [(checkout_eq_checkoutLoop (db.checkout).2).1, hcart]
  cases hc : db.cart with
  | nil => exact absurd hc hne
  | cons item rest =>
    have hitem : item ∈ db.cart := by simp [hc]
    cases hf : findIndex (fun product => product.id == item.id) (db.checkout).2.products with
    | none => simp [checkoutLoop, hf]
    | some i =>
      have hget : (db.checkout).2.getProductById item.id
          = some (db.checkout).2.products[i.val] := by
        unfold ProductDB.getProductById
        rw [find?_eq_findIndex, hf]
        simp
      have h0 := hnone item hitem _ hget
      have hq := hpos item hitem
      have hlt : ¬ (db.checkout).2.products[i.val].stock ≥ item.quantity := by omega
      simp [checkoutLoop, hf, hlt]

/-- Witness of C13: one product with stock 2 and a line of quantity 2. -/
theorem second_checkout_rejected_witness :
    soldOutDb.cart ≠ [] ∧ (∀ line ∈ soldOutDb.cart, 0 < line.quantity) ∧
    (soldOutDb.checkout).1 = true ∧
    (∀ line ∈ soldOutDb.cart, ∀ product,
      (soldOutDb.checkout).2.getProductById line.id = some product → product.stock = 0) ∧
    ((soldOutDb.checkout).2.checkout).1 = false :=
  have hnone : ∀ line ∈ soldOutDb.cart, ∀ product,
      (soldOutDb.checkout).2.getProductById line.id = some product → product.stock = 0 := by
    intro line hl product hp
    have hline : line = sampleLine "p1" 2 := by simpa [soldOutDb, sampleDb] using hl
    subst hline
    have hprod : (soldOutDb.checkout).2.getProductById (sampleLine "p1" 2).id
        = some (sampleProduct "p1" 0) := by decide
    rw [hprod] at hp
    rw [← Option.some.inj hp]
    rfl
  ⟨by decide, by decide, by decide, hnone,
    second_checkout_rejected soldOutDb (by decide) (by decide) (by decide) hnone⟩

theorem showBillValidation_fold (db : ProductDB) (cart : List CartItem)
    (state : Bool × List String) :
    (cart.foldl
      (fun (state : Bool × List String) (cartItem : CartItem) =>
        match db.getProductById cartItem.id with
        | none => (false, state.2 ++ [cartItem.name])
        | some product =>
          if product.stock < cartItem.quantity then (false, state.2 ++ [cartItem.name])
          else state)
      state).2 = state.2 ++ (cart.filter (isOffender db)).map CartItem.name ∧
    ((cart.foldl
      (fun (state : Bool × List String) (cartItem : CartItem) =>
        match db.getProductById cartItem.id with
        | none => (false, state.2 ++ [cartItem.name])
        | some product =>
          if product.stock < cartItem.quantity then (false, state.2 ++ [cartItem.name])
          else state)
      state).1 = (state.1 && (cart.filter (isOffender db)).isEmpty)) := by
  induction cart generalizing state with
  | nil => simp
  | cons item rest ih =>
    simp only [List.foldl_cons]
    cases hp : db.getProductById item.id with
    | none =>
      obtain ⟨h1, h2⟩ := ih (false, state.2 ++ [item.name])
      simp only [h1, h2]
      simp [List.filter_cons, isOffender, hp]
    | some product =>
      by_cases hlt : product.stock < item.quantity
      · obtain ⟨h1, h2⟩ := ih (false, state.2 ++ [item.name])
        simp only [hlt, if_true, h1, h2]
        simp [List.filter_cons, isOffender, hp, hlt]
      · obtain ⟨h1, h2⟩ := ih state
        simp only [hlt, if_false, h1, h2]
        simp [List.filter_cons, isOffender, hp, hlt]

/-- C14: the names reported by the validation of `showBill` are, in cart order,
the names of exactly the lines whose product is unknown or has a stock below
the quantity of the line, and the order is rejected (`stockValid` is false)
if and only if that list is not empty. -/
theorem showBillValidation_spec (db : ProductDB) :
    (showBillValidation db).2 = (db.cart.filter (isOffender db)).map CartItem.name ∧
    ((showBillValidation db).1 = false ↔ (showBillValidation db).2 ≠ []) := by
  obtain ⟨h1, h2⟩ := showBillValidation_fold db db.cart (true, [])
  unfold showBillValidation
  refine ⟨by simpa using h1, ?_⟩
  rw [h1, h2]
  cases hfl : db.cart.filter (isOffender db) <;> simp

/-! ## Prices: parsePrice and getCartTotal -/
theorem cleanString_toList (s : String) :
    (cleanString s).toList = s.toList.filter Char.isDigit := by
  unfold cleanString
  simp only [String.toList, List.filter_filter]
  apply List.filter_congr
  intro c _
  by_cases hc : c = ','
  · subst hc; decide
  · have h1 : (c == ',') = false := beq_false_of_ne hc
    simp [bne, h1]

theorem takeWhile_filter_self {α : Type} (p : α → Bool) (xs : List α) :
    (xs.filter p).takeWhile p = xs.filter p := by
  induction xs with
  | nil => rfl
  | cons x xs ih =>
    by_cases hx : p x = true
    · simp [List.filter_cons, hx, List.takeWhile_cons, ih]
    · simp [List.filter_cons, hx, ih]

theorem decimalValue_fold (digits : List Char) (value : Nat) :
    digits.foldl (fun value c => 10 * value + (c.toNat - 48)) value =
      Nat.ofDigits 10 ((digits.map (fun c => c.toNat - 48)).reverse ++ [value]) := by
  induction digits generalizing value with
  | nil => simp [Nat.ofDigits]
  | cons c cs ih =>
    simp only [List.foldl_cons, List.map_cons, List.reverse_cons, List.append_assoc,
      List.singleton_append]
    rw [ih, Nat.ofDigits_append, Nat.ofDigits_append]
    simp [Nat.ofDigits]
    ring

theorem decimalValue_eq_ofDigits (digits : List Char) :
    decimalValue digits = Nat.ofDigits 10 ((digits.map (fun c => c.toNat - 48)).reverse) := by
  unfold decimalValue
  rw [decimalValue_fold, Nat.ofDigits_append]
  simp [Nat.ofDigits]

theorem doubleExponent_of_lt (fuel n : Nat) (h : n < 2 ^ 53) : doubleExponent fuel n = 0 := by
  cases fuel with
  | zero => rfl
  | succ fuel =>
    unfold doubleExponent
    rw [if_pos h]

theorem doubleExponent_spec (fuel n : Nat) (hfuel : n ≤ fuel) (hn : 2 ^ 53 ≤ n) :
    2 ^ 52 ≤ n / 2 ^ doubleExponent fuel n ∧ n / 2 ^ doubleExponent fuel n < 2 ^ 53 ∧
      1 ≤ doubleExponent fuel n := by
  induction fuel generalizing n with
  | zero => omega
  | succ fuel ih =>
    have hnot : ¬ n < 2 ^ 53 := by omega
    simp only [doubleExponent, hnot, if_false]
    have hdiv : n / 2 ^ (doubleExponent fuel (n / 2) + 1) =
        n / 2 / 2 ^ doubleExponent fuel (n / 2) := by
      rw [pow_succ', Nat.div_div_eq_div_mul]
    rw [hdiv]
    by_cases hhalf : n / 2 < 2 ^ 53
    · rw [doubleExponent_of_lt fuel (n / 2) hhalf]
      simp only [pow_zero, Nat.div_one]
      omega
    · have := ih (n / 2) (by omega) (by omega)
      omega

theorem roundToDouble_of_lt (n : Nat) (h : n < 2 ^ 53) : roundToDouble n = n := by
  unfold roundToDouble
  rw [doubleExponent_of_lt n n h]
  simp [Nat.mod_one]

theorem roundToDouble_of_le (n : Nat) (h : n ≤ 2 ^ 53) : roundToDouble n = n := by
  rcases Nat.lt_or_ge n (2 ^ 53) with hlt | hge
  · exact roundToDouble_of_lt n hlt
  · have : n = 2 ^ 53 := by omega
    subst this
    decide

theorem roundToDouble_ge (n : Nat) (hn : 2 ^ 53 ≤ n) : 2 ^ 53 ≤ roundToDouble n := by
  obtain ⟨h1, _, h3⟩ := doubleExponent_spec n n (le_refl n) hn
  have hunit : 2 ≤ 2 ^ doubleExponent n n := by
    calc 2 = 2 ^ 1 := by norm_num
      _ ≤ 2 ^ doubleExponent n n := Nat.pow_le_pow_right (by norm_num) h3
  have hmul : 2 ^ 52 * 2 ≤ n / 2 ^ doubleExponent n n * 2 ^ doubleExponent n n :=
    Nat.mul_le_mul h1 hunit
  unfold roundToDouble
  simp only
  split
  · omega
  · have : n / 2 ^ doubleExponent n n * 2 ^ doubleExponent n n ≤
        (n / 2 ^ doubleExponent n n + 1) * 2 ^ doubleExponent n n :=
      Nat.mul_le_mul_right _ (by omega)
    omega

theorem roundToDouble_mul_pow (c e : Nat) (hc : c < 2 ^ 53) :
    roundToDouble (c * 2 ^ e) = c * 2 ^ e := by
  rcases Nat.lt_or_ge (c * 2 ^ e) (2 ^ 53) with hlt | hge
  · exact roundToDouble_of_lt _ hlt
  · obtain ⟨h1, _, _⟩ := doubleExponent_spec (c * 2 ^ e) (c * 2 ^ e) (le_refl _) hge
    obtain ⟨E, hEdef⟩ : ∃ E, doubleExponent (c * 2 ^ e) (c * 2 ^ e) = E := ⟨_, rfl⟩
    rw [hEdef] at h1
    have hle : 2 ^ 52 * 2 ^ E ≤ c * 2 ^ e := by
      calc 2 ^ 52 * 2 ^ E ≤ c * 2 ^ e / 2 ^ E * 2 ^ E := Nat.mul_le_mul_right _ h1
        _ ≤ c * 2 ^ e := Nat.div_mul_le_self _ _
    have hlt : c * 2 ^ e < 2 ^ 53 * 2 ^ e :=
      Nat.mul_lt_mul_of_pos_right hc (by positivity)
    have hE : E ≤ e := by
      by_contra hcon
      have h2 : 2 ^ (e + 1) ≤ 2 ^ E := Nat.pow_le_pow_right (by norm_num) (by omega)
      have h3 : 2 ^ 52 * 2 ^ (e + 1) ≤ 2 ^ 52 * 2 ^ E := Nat.mul_le_mul_left _ h2
      rw [pow_succ] at h3
      omega
    have hdvd : 2 ^ E ∣ c * 2 ^ e :=
      Dvd.dvd.mul_left (pow_dvd_pow 2 hE) c
    have hmod : c * 2 ^ e % 2 ^ E = 0 := Nat.mod_eq_zero_of_dvd hdvd
    have hpos : 0 < 2 ^ E := by positivity
    unfold roundToDouble
    simp only [hEdef, hmod]
    rw [if_pos (Or.inl (by omega))]
    exact Nat.div_mul_cancel hdvd

theorem roundToDouble_idem (n : Nat) : roundToDouble (roundToDouble n) = roundToDouble n := by
  rcases Nat.lt_or_ge n (2 ^ 53) with hlt | hge
  · rw [roundToDouble_of_lt n hlt]
    exact roundToDouble_of_lt n hlt
  · obtain ⟨_, h2, _⟩ := doubleExponent_spec n n (le_refl n) hge
    have hform : roundToDouble n = n / 2 ^ doubleExponent n n * 2 ^ doubleExponent n n ∨
        roundToDouble n = (n / 2 ^ doubleExponent n n + 1) * 2 ^ doubleExponent n n := by
      unfold roundToDouble
      simp only
      split
      · exact Or.inl rfl
      · exact Or.inr rfl
    rcases hform with h | h
    · rw [h]
      exact roundToDouble_mul_pow _ _ h2
    · rw [h]
      rcases Nat.lt_or_ge (n / 2 ^ doubleExponent n n + 1) (2 ^ 53) with hs | hs
      · exact roundToDouble_mul_pow _ _ hs
      · have hcarry : n / 2 ^ doubleExponent n n + 1 = 2 ^ 52 * 2 := by omega
        rw [hcarry, mul_assoc, ← pow_succ']
        exact roundToDouble_mul_pow _ _ (by norm_num)

theorem parsePrice_eq_roundToDouble (s : String) :
    parsePrice s = roundToDouble (decimalValue (s.toList.filter Char.isDigit)) := by
  unfold parsePrice
  by_cases hs : s = ""
  · subst hs; decide
  · simp only [hs, if_false]
    unfold parseInt
    rw [cleanString_toList, takeWhile_filter_self]
    cases s.toList.filter Char.isDigit with
    | nil => decide
    | cons d ds => rfl

theorem leading_digit_ne_zero (ds : List Char) (hhead : ds.head? ≠ some '0')
    (hall : ∀ c ∈ ds, c.isDigit = true) :
    ∀ hne : (ds.map (fun c => c.toNat - 48)).reverse ≠ [],
      ((ds.map (fun c => c.toNat - 48)).reverse).getLast hne ≠ 0 := by
  intro hne
  rw [List.getLast_reverse]
  cases ds with
  | nil => simp at hne
  | cons d ds =>
    have hdig := hall d (by simp)
    simp only [Char.isDigit, Bool.and_eq_true, decide_eq_true_eq] at hdig
    have h1 : 48 ≤ d.toNat := hdig.1
    have hne0 : d ≠ '0' := by
      intro h0
      apply hhead
      rw [h0]
      rfl
    simp only [List.map_cons, List.head_cons]
    intro hzero
    apply hne0
    have h48 : d.toNat = 48 := by omega
    rw [← Char.ofNat_toNat d, h48]

/-- C15: `getCartTotal()` is the sum over the cart lines of
`parsePrice(line.price) * line.quantity`, and 0 for the empty cart. -/
theorem getCartTotal_eq_sum (db : ProductDB) :
    db.getCartTotal =
      (db.cart.map (fun line => (parsePrice line.price : Int) * line.quantity)).sum ∧
    (db.cart = [] → db.getCartTotal = 0) := by
  have hfold : ∀ (cart : List CartItem) (start : Int),
      cart.foldl (fun (total : Int) (item : CartItem) =>
          total + (parsePrice item.price : Int) * item.quantity) start
        = start + (cart.map (fun line => (parsePrice line.price : Int) * line.quantity)).sum := by
    intro cart
    induction cart with
    | nil => intro start; simp
    | cons item rest ih =>
      intro start
      simp only [List.foldl_cons, List.map_cons, List.sum_cons]
      rw [ih]
      ring
  constructor
  · unfold ProductDB.getCartTotal
    simpa using hfold db.cart 0
  · intro h
    simp [ProductDB.getCartTotal, h]

/-- C16 fails on the code above `2 ^ 53`: the digits of `9007199254740993`
write the number `2 ^ 53 + 1`, which no double holds, and `parsePrice` returns
the double next to it, `9007199254740992`. -/
theorem parsePrice_rounds_to_double :
    decimalValue ("9007199254740993".toList.filter Char.isDigit) = 9007199254740993 ∧
    parsePrice "9007199254740993" = 9007199254740992 ∧
    parsePrice "9007199254740993" ≠
      decimalValue ("9007199254740993".toList.filter Char.isDigit) := by
  decide

/-- C16, amended: when the ASCII digits of `s`, in their order, write a number
of at most `2 ^ 53`, then `parsePrice` works on the string stripped of every
character that is not an ASCII digit (the commas included) and returns that
number, whose decimal digits are those of `s` unless the first is `0`; the
result is 0 when `s` is empty or holds no digit. -/
theorem parsePrice_exact (s : String)
    (hbound : decimalValue (s.toList.filter Char.isDigit) ≤ 2 ^ 53) :
    (cleanString s).toList = s.toList.filter Char.isDigit ∧
    parsePrice s = decimalValue (s.toList.filter Char.isDigit) ∧
    parsePrice s =
      Nat.ofDigits 10 (((s.toList.filter Char.isDigit).map (fun c => c.toNat - 48)).reverse) ∧
    ((s.toList.filter Char.isDigit).head? ≠ some '0' →
      Nat.digits 10 (parsePrice s) =
        ((s.toList.filter Char.isDigit).map (fun c => c.toNat - 48)).reverse) ∧
    (s.toList.filter Char.isDigit = [] → parsePrice s = 0) ∧
    parsePrice "" = 0 ∧
    parsePrice "1,200 افغانی" = 1200 := by
  have hdec : parsePrice s = decimalValue (s.toList.filter Char.isDigit) := by
    rw [parsePrice_eq_roundToDouble]
    exact roundToDouble_of_le _ hbound
  have hval := hdec
  rw [decimalValue_eq_ofDigits] at hval
  refine ⟨cleanString_toList s, hdec, hval, ?_, ?_, by decide, by decide⟩
  · intro hhead
    rw [hval]
    apply Nat.digits_ofDigits 10 (by norm_num)
    · intro l hl
      simp only [List.mem_reverse, List.mem_map, List.mem_filter] at hl
      obtain ⟨c, ⟨_, hc⟩, rfl⟩ := hl
      simp only [Char.isDigit, Bool.and_eq_true, decide_eq_true_eq] at hc
      have h1 : c.toNat ≤ 57 := hc.2
      omega
    · exact leading_digit_ne_zero _ hhead (fun c hc => (List.mem_filter.1 hc).2)
  · intro hnil
    rw [hval, hnil]
    rfl

/-- Witness of C16: the price text that writes `2 ^ 53` itself, the largest
number within the bound. -/
theorem parsePrice_exact_witness :
    decimalValue ("9,007,199,254,740,992 افغانی".toList.filter Char.isDigit) ≤ 2 ^ 53 ∧
    parsePrice "9,007,199,254,740,992 افغانی" =
      decimalValue ("9,007,199,254,740,992 افغانی".toList.filter Char.isDigit) ∧
    parsePrice "9,007,199,254,740,992 افغانی" = 9007199254740992 :=
  ⟨by decide, (parsePrice_exact "9,007,199,254,740,992 افغانی" (by decide)).2.1, by decide⟩

/-! ## Prices: formatPrice after parsePrice -/
theorem digitChar_spec (k : Nat) (hk : k < 10) :
    (Nat.digitChar k).isDigit = true ∧ (Nat.digitChar k).toNat - 48 = k := by
  interval_cases k <;> exact ⟨by decide, by decide⟩

theorem decimalValue_append_singleton (l : List Char) (d : Char) :
    decimalValue (l ++ [d]) = 10 * decimalValue l + (d.toNat - 48) := by
  simp [decimalValue, List.foldl_append]

theorem toDigitsCore_spec (fuel n : Nat) (h : n < fuel) :
    ∃ l : List Char, (∀ ds, Nat.toDigitsCore 10 fuel n ds = l ++ ds) ∧
      decimalValue l = n ∧ (∀ c ∈ l, c.isDigit = true) := by
  induction fuel generalizing n with
  | zero => omega
  | succ fuel ih =>
    obtain ⟨hd1, hd2⟩ := digitChar_spec (n % 10) (Nat.mod_lt _ (by norm_num))
    by_cases h0 : n / 10 = 0
    · refine ⟨[Nat.digitChar (n % 10)], ?_, ?_, ?_⟩
      · intro ds
        simp [Nat.toDigitsCore, h0]
      · have hn : n < 10 := by omega
        simp only [decimalValue, List.foldl_cons, List.foldl_nil, hd2]
        omega
      · intro c hc
        simp only [List.mem_singleton] at hc
        rw [hc]; exact hd1
    · obtain ⟨l, hl1, hl2, hl3⟩ := ih (n / 10) (by omega)
      refine ⟨l ++ [Nat.digitChar (n % 10)], ?_, ?_, ?_⟩
      · intro ds
        simp [Nat.toDigitsCore, h0, hl1]
      · rw [decimalValue_append_singleton, hl2, hd2]
        omega
      · intro c hc
        simp only [List.mem_append, List.mem_singleton] at hc
        rcases hc with hc | hc
        · exact hl3 c hc
        · rw [hc]; exact hd1

theorem toDigits_spec (n : Nat) :
    decimalValue (Nat.toDigits 10 n) = n ∧
    ∀ c ∈ Nat.toDigits 10 n, c.isDigit = true := by
  obtain ⟨l, hl1, hl2, hl3⟩ := toDigitsCore_spec (n + 1) n (by omega)
  have : Nat.toDigits 10 n = l := by
    simp [Nat.toDigits, hl1]
  rw [this]
  exact ⟨hl2, hl3⟩

theorem roundToDouble_shortestDecimalFrom (double zeros : Nat)
    (h : roundToDouble double = double) :
    roundToDouble (shortestDecimalFrom double zeros) = double := by
  induction zeros with
  | zero => exact h
  | succ zeros ih =>
    unfold shortestDecimalFrom
    simp only
    split
    · rename_i hboth
      simp only [Bool.and_eq_true, decide_eq_true_eq] at hboth
      split
      · exact hboth.1
      · split
        · exact hboth.2
        · split
          · exact hboth.1
          · exact hboth.2
    · split
      · rename_i hb
        simpa using hb
      · split
        · rename_i ha
          simpa using ha
        · exact ih

theorem roundToDouble_shortestDecimal (n : Nat) :
    roundToDouble (shortestDecimal (roundToDouble n)) = roundToDouble n :=
  roundToDouble_shortestDecimalFrom _ _ (roundToDouble_idem n)

theorem shortestDecimalFrom_of_lt (n zeros : Nat) (h : n < 2 ^ 53) :
    shortestDecimalFrom n zeros = n := by
  induction zeros with
  | zero => rfl
  | succ zeros ih =>
    have hpos : 0 < 10 ^ (zeros + 1) := by positivity
    have hbelow : n / 10 ^ (zeros + 1) * 10 ^ (zeros + 1) ≤ n := Nat.div_mul_le_self _ _
    have habove : n < n / 10 ^ (zeros + 1) * 10 ^ (zeros + 1) + 10 ^ (zeros + 1) := by
      have := Nat.lt_div_mul_add (a := n) hpos
      exact this
    have hb : roundToDouble (n / 10 ^ (zeros + 1) * 10 ^ (zeros + 1)) =
        n / 10 ^ (zeros + 1) * 10 ^ (zeros + 1) := roundToDouble_of_lt _ (by omega)
    have ha : roundToDouble (n / 10 ^ (zeros + 1) * 10 ^ (zeros + 1) + 10 ^ (zeros + 1)) ≠ n := by
      intro hcon
      rcases Nat.lt_or_ge (n / 10 ^ (zeros + 1) * 10 ^ (zeros + 1) + 10 ^ (zeros + 1)) (2 ^ 53)
        with hlt | hge
      · rw [roundToDouble_of_lt _ hlt] at hcon
        omega
      · have := roundToDouble_ge _ hge
        omega
    unfold shortestDecimalFrom
    simp only [hb, ha, decide_False, Bool.and_false, Bool.false_eq_true, if_false]
    by_cases heq : n / 10 ^ (zeros + 1) * 10 ^ (zeros + 1) = n
    · simp only [heq, decide_True, if_true]
    · simp only [heq, decide_False, Bool.false_eq_true, if_false]
      exact ih

theorem numberToString_of_lt (n : Nat) (h : n < 2 ^ 53) :
    numberToString n = String.mk (Nat.toDigits 10 n) := by
  unfold numberToString
  simp only [roundToDouble_of_lt n h]
  have h21 : n < 10 ^ 21 := by
    have : (2 : Nat) ^ 53 < 10 ^ 21 := by norm_num
    omega
  rw [if_pos h21]
  unfold shortestDecimal
  rw [shortestDecimalFrom_of_lt n _ h]

theorem filter_isDigit_insertCommas (prev : Option Char) (cs : List Char) :
    (insertCommas prev cs).filter Char.isDigit = cs.filter Char.isDigit := by
  induction cs generalizing prev with
  | nil => rfl
  | cons c cs ih =>
    simp only [insertCommas, List.filter_append, List.filter_cons, ih]
    split <;> simp

theorem parsePrice_formatNumberWithCommas_suffix (n : Nat)
    (h : roundToDouble n < 10 ^ 21) :
    parsePrice (formatNumberWithCommas n ++ " افغانی") = roundToDouble n := by
  rw [parsePrice_eq_roundToDouble]
  have hsuffix : (" افغانی" : String).toList.filter Char.isDigit = [] := by decide
  simp only [String.toList, String.data_append, List.filter_append] at hsuffix ⊢
  rw [hsuffix, List.append_nil]
  unfold formatNumberWithCommas
  by_cases h0 : n = 0
  · subst h0; decide
  · simp only [h0, if_false]
    obtain ⟨hval, hdig⟩ := toDigits_spec (shortestDecimal (roundToDouble n))
    unfold numberToString
    simp only [if_pos h, String.toList]
    rw [filter_isDigit_insertCommas, List.filter_eq_self.2 hdig, hval]
    exact roundToDouble_shortestDecimal n

/-- C17 fails on the code from `10 ^ 21` on, where `toString` turns to exponent
notation: for `x` the digits of `10 ^ 21`, `formatPrice(parsePrice(x))` is
`1e+21 افغانی`, which `parsePrice` reads as 121, so that
`parsePrice(formatPrice(10 ^ 21))` is 121 and `f(f(x))` is `121 افغانی`. -/
theorem formatPrice_exponent_round_trip :
    parsePrice "1000000000000000000000" = 10 ^ 21 ∧
    formatPrice (Price.number (parsePrice "1000000000000000000000")) = "1e+21 افغانی" ∧
    parsePrice (formatPrice (Price.number (10 ^ 21))) = 121 ∧
    formatPrice (Price.number (parsePrice
      (formatPrice (Price.number (parsePrice "1000000000000000000000"))))) = "121 افغانی" ∧
    formatPrice (Price.text (formatPrice (Price.text "1000000000000000000000"))) ≠
      formatPrice (Price.text "1000000000000000000000") := by
  decide

/-- C17, amended: `parsePrice(formatPrice(n)) = n` for every number `n` below
`10 ^ 21` (a natural number that is a double, as every one up to `2 ^ 53` is),
and `f(f(x)) = f(x)` for `f(x) = formatPrice(parsePrice(x))` and every string
`x` with `parsePrice(x)` below `10 ^ 21`; `formatPrice` applied to such strings
is idempotent as well. -/
theorem formatPrice_parsePrice_round_trip (n : Nat) (x : String)
    (hn : n < 10 ^ 21) (hdouble : roundToDouble n = n) (hx : parsePrice x < 10 ^ 21) :
    parsePrice (formatPrice (Price.number n)) = n ∧
    formatPrice (Price.number (parsePrice (formatPrice (Price.number (parsePrice x))))) =
      formatPrice (Price.number (parsePrice x)) ∧
    formatPrice (Price.text (formatPrice (Price.text x))) = formatPrice (Price.text x) ∧
    (∀ m : Nat, m ≤ 2 ^ 53 → roundToDouble m = m ∧
      parsePrice (formatPrice (Price.number m)) = m) := by
  have h1 : ∀ k : Nat, roundToDouble k < 10 ^ 21 →
      parsePrice (formatPrice (Price.number k)) = roundToDouble k := by
    intro k hk
    simp only [formatPrice]
    exact parsePrice_formatNumberWithCommas_suffix k hk
  have hxx : roundToDouble (parsePrice x) = parsePrice x := by
    rw [parsePrice_eq_roundToDouble]
    exact roundToDouble_idem _
  refine ⟨?_, ?_, ?_, ?_⟩
  · rw [h1 n (by rw [hdouble]; exact hn), hdouble]
  · rw [h1 (parsePrice x) (by rw [hxx]; exact hx), hxx]
  · simp only [formatPrice]
    rw [parsePrice_formatNumberWithCommas_suffix _ (by rw [hxx]; exact hx), hxx]
  · intro m hm
    have hmm := roundToDouble_of_le m hm
    refine ⟨hmm, ?_⟩
    rw [h1 m ?_, hmm]
    rw [hmm]
    have : (2 : Nat) ^ 53 < 10 ^ 21 := by norm_num
    omega

/-- Witness of C17: the double `2 ^ 64`, which `toString` writes
`18446744073709552000`, and the price text `1,200 افغانی`. -/
theorem formatPrice_parsePrice_round_trip_witness :
    (2 ^ 64 < 10 ^ 21 ∧ roundToDouble (2 ^ 64) = 2 ^ 64 ∧
      parsePrice "1,200 افغانی" < 10 ^ 21) ∧
    formatPrice (Price.number (2 ^ 64)) = "18,446,744,073,709,552,000 افغانی" ∧
    parsePrice (formatPrice (Price.number (2 ^ 64))) = 2 ^ 64 ∧
    formatPrice (Price.number (parsePrice (formatPrice (Price.number
      (parsePrice "1,200 افغانی"))))) = formatPrice (Price.number (parsePrice "1,200 افغانی")) :=
  ⟨by decide, by decide,
    (formatPrice_parsePrice_round_trip (2 ^ 64) "1,200 افغانی"
      (by decide) (by decide) (by decide)).1,
    (formatPrice_parsePrice_round_trip (2 ^ 64) "1,200 افغانی"
      (by decide) (by decide) (by decide)).2.1⟩

/-! ## Search: the filtered result -/
theorem includes_empty_left (t : String) (ht : t ≠ "") : includes "" t = false := by
  cases t with
  | mk l =>
    cases l with
    | nil => exact absurd rfl ht
    | cons c cs => rfl

theorem guarded_includes (ops : StringOps) (field query : String) (hq : query ≠ "") :
    (field != "" && includes (ops.toLowerCase field) (ops.toLowerCase query)) =
      includes (ops.toLowerCase field) (ops.toLowerCase query) := by
  by_cases hf : field = ""
  · subst hf
    have hlow : ops.toLowerCase "" = "" := (ops.toLowerCase_eq_empty "").2 rfl
    have hterm : ops.toLowerCase query ≠ "" := fun h => hq ((ops.toLowerCase_eq_empty query).1 h)
    rw [hlow, includes_empty_left _ hterm]
    rfl
  · have : (field != "") = true := by simp [bne, hf]
    rw [this, Bool.true_and]

theorem searchProducts_results (ops : StringOps) (products : List Product) (view : SearchView)
    (query category : String) :
    (searchProducts ops products view query category).2.currentSearchResults =
      filteredBySpec ["all", "همه"] ops products query category := by
  have hcat : (category != "all" && category != "همه") = true ↔
      ¬ category ∈ ["all", "همه"] := by
    simp [bne]
  have hquery : (query != "" && ops.trim query != "") = true ↔ ¬ ops.trim query = "" := by
    by_cases hq : query = ""
    · subst hq
      simp [ops.trim_empty]
    · simp [bne, hq]
  have hpred : query ≠ "" → ∀ product : Product,
      ((product.name != "" && includes (ops.toLowerCase product.name) (ops.toLowerCase query)) ||
        (product.code != "" &&
          includes (ops.toLowerCase product.code) (ops.toLowerCase query)) ||
        (product.description != "" &&
          includes (ops.toLowerCase product.description) (ops.toLowerCase query)) ||
        (product.fullDescription != "" &&
          includes (ops.toLowerCase product.fullDescription) (ops.toLowerCase query)))
        = matchesQuery ops query product := by
    intro hq product
    unfold matchesQuery
    rw [guarded_includes ops _ _ hq, guarded_includes ops _ _ hq, guarded_includes ops _ _ hq,
      guarded_includes ops _ _ hq]
  unfold searchProducts filteredBySpec
  simp only
  by_cases htrim : ops.trim query = ""
  · have hq : ¬ (query != "" && ops.trim query != "") = true := by
      rw [hquery]; simp [htrim]
    by_cases hc : category ∈ ["all", "همه"]
    · have hc2 : ¬ (category != "all" && category != "همه") = true := by
        rw [hcat]; simp [hc]
      simp only [hq, hc2, hc, if_true, if_false, Bool.false_eq_true]
      simp only [htrim, if_true]
    · have hc2 : (category != "all" && category != "همه") = true := hcat.2 hc
      simp only [hq, hc2, hc, if_true, if_false, Bool.false_eq_true]
      simp only [htrim, if_true]
  · have hq : (query != "" && ops.trim query != "") = true := hquery.2 htrim
    have hne : query ≠ "" := by
      intro h
      apply htrim
      rw [h]
      exact ops.trim_empty
    have hfun := funext (hpred hne)
    by_cases hc : category ∈ ["all", "همه"]
    · have hc2 : ¬ (category != "all" && category != "همه") = true := by
        rw [hcat]; simp [hc]
      simp only [hq, hc2, hc, htrim, if_true, if_false, hfun, Bool.false_eq_true]
    · have hc2 : (category != "all" && category != "همه") = true := hcat.2 hc
      simp only [hq, hc2, hc, htrim, if_true, if_false, hfun, Bool.false_eq_true]

/-! ## Search: pages and sub-sequences -/
theorem mem_of_mem_slice {α : Type} (xs : List α) (start stop : Int) (x : α)
    (h : x ∈ slice xs start stop) : x ∈ xs := by
  unfold slice at h
  exact List.mem_of_mem_drop (List.mem_of_mem_take h)

theorem slice_first_page {α : Type} (xs : List α) : slice xs 0 20 = xs.take 20 := by
  unfold slice
  simp only [lt_self_iff_false, if_false, List.drop_zero]
  have h0 : min (0 : Int) (xs.length : Int) = 0 := by omega
  rw [h0]
  by_cases hlen : xs.length ≤ 20
  · have h1 : (min (20 : Int) (xs.length : Int) - 0).toNat = xs.length := by omega
    have h2 : ¬ ((20 : Int) < 0) := by omega
    simp only [h2, if_false, Int.toNat_zero, List.drop_zero, h1]
    rw [List.take_of_length_le (le_refl _), List.take_of_length_le hlen]
  · have h1 : (min (20 : Int) (xs.length : Int) - 0).toNat = 20 := by omega
    have h2 : ¬ ((20 : Int) < 0) := by omega
    simp only [h2, if_false, Int.toNat_zero, List.drop_zero, h1]

theorem searchProducts_page (ops : StringOps) (products : List Product) (view : SearchView)
    (query category : String) :
    (searchProducts ops products view query category).1 =
      slice (searchProducts ops products view query category).2.currentSearchResults
        ((view.currentPage - 1) * 20) ((view.currentPage - 1) * 20 + 20) ∧
    (searchProducts ops products view query category).2.currentPage = view.currentPage ∧
    (searchProducts ops products view query category).2.currentCategory = category := by
  refine ⟨rfl, rfl, rfl⟩

theorem filteredBySpec_empty_query (sentinels : List String) (ops : StringOps)
    (products : List Product) (category : String) :
    filteredBySpec sentinels ops products "" category =
      if category ∈ sentinels then products
      else products.filter (fun product => product.category == category) := by
  unfold filteredBySpec
  simp [ops.trim_empty]

theorem filteredBySpec_sublist (sentinels : List String) (ops : StringOps)
    (products : List Product) (query category : String) :
    List.Sublist (filteredBySpec sentinels ops products query category)
      (filteredBySpec sentinels ops products "" category) ∧
    List.Sublist (filteredBySpec sentinels ops products "" category) products := by
  rw [filteredBySpec_empty_query]
  unfold filteredBySpec
  constructor
  · by_cases htrim : ops.trim query = ""
    · simp only [htrim, if_true]
      exact List.Sublist.refl _
    · simp only [htrim, if_false]
      exact List.filter_sublist _
  · split
    · exact List.Sublist.refl _
    · exact List.filter_sublist _

/-! ## Search: what searchProducts keeps and returns -/
/-- C18 as stated fails: for the category `همه` the code skips the category
stage as it does for `all`, so a product of category `general` is kept, while
the claimed restriction to the products of category `همه` keeps none. -/
theorem searchProducts_keeps_all_for_second_sentinel :
    (searchProducts asciiOps [sampleProduct "a" 5] initialView "" "همه").2.currentSearchResults
      = [sampleProduct "a" 5] ∧
    (sampleProduct "a" 5).category ≠ "همه" ∧
    filteredBySpec ["all"] asciiOps [sampleProduct "a" 5] "" "همه" = [] := by
  decide

/-- C18, amended: the filtered result of `searchProducts(query, category)` is
the catalog, in its order, restricted to the products of the category (stage
skipped when the category is `all` or `همه`) and then, when the query is not
empty after trimming, to the products whose name, code, description or full
description, lowercased, contains the lowercased query; nothing else is kept
or dropped. -/
theorem searchProducts_filtered (ops : StringOps) (products : List Product)
    (view : SearchView) (query category : String) :
    (searchProducts ops products view query category).2.currentSearchResults =
      filteredBySpec ["all", "همه"] ops products query category ∧
    List.Sublist (searchProducts ops products view query category).2.currentSearchResults
      products := by
  rw [searchProducts_results]
  refine ⟨rfl, ?_⟩
  obtain ⟨h1, h2⟩ := filteredBySpec_sublist ["all", "همه"] ops products query category
  exact h1.trans h2

/-- C19 as stated fails: on a catalog of 21 products, with the page at 1,
`searchProducts("", "all")` returns the first 20 products only. -/
theorem search_returns_one_page_of_full_catalog :
    catalog21.length = 21 ∧
    (searchProducts asciiOps catalog21 initialView "" "all").1 = catalog21.take 20 ∧
    (searchProducts asciiOps catalog21 initialView "" "all").1 ≠ catalog21 := by
  decide

/-- C19, amended: `searchProducts("", "all")` sets the filtered result to the
full catalog in its original order and returns the current page of it: the
first 20 products when the page is 1, hence the full catalog when the page
is 1 and the catalog has at most 20 products. -/
theorem searchProducts_empty_all (ops : StringOps) (products : List Product)
    (view : SearchView) :
    (searchProducts ops products view "" "all").2.currentSearchResults = products ∧
    (searchProducts ops products view "" "all").1 =
      slice products ((view.currentPage - 1) * 20) ((view.currentPage - 1) * 20 + 20) ∧
    (view.currentPage = 1 →
      (searchProducts ops products view "" "all").1 = products.take 20) ∧
    (view.currentPage = 1 → products.length ≤ 20 →
      (searchProducts ops products view "" "all").1 = products) := by
  have hres : (searchProducts ops products view "" "all").2.currentSearchResults = products := by
    rw [searchProducts_results, filteredBySpec_empty_query]
    simp
  have hpage := (searchProducts_page ops products view "" "all").1
  rw [hres] at hpage
  have hfirst : view.currentPage = 1 →
      (searchProducts ops products view "" "all").1 = products.take 20 := by
    intro h1
    rw [hpage, h1]
    exact slice_first_page products
  refine ⟨hres, hpage, hfirst, ?_⟩
  intro h1 hlen
  rw [hfirst h1, List.take_of_length_le hlen]

/-- Witness of the amended C19: a catalog of two products, page 1. -/
theorem searchProducts_empty_all_witness :
    initialView.currentPage = 1 ∧
    [sampleProduct "a" 5, sampleProduct "b" 3].length ≤ 20 ∧
    (searchProducts asciiOps [sampleProduct "a" 5, sampleProduct "b" 3] initialView "" "all").1
      = [sampleProduct "a" 5, sampleProduct "b" 3] :=
  ⟨rfl, by decide,
    (searchProducts_empty_all asciiOps [sampleProduct "a" 5, sampleProduct "b" 3]
      initialView).2.2.2 rfl (by decide)⟩

/-- C20 as stated fails: on a catalog of 21 products whose last one is the only
one named `zz`, `searchProducts("zz", "all")` returns that product, which is
not among the 20 products that `searchProducts("", "all")` returns. -/
theorem searchProducts_result_not_on_unfiltered_page :
    namedProduct "20" "zz" ∈ (searchProducts asciiOps catalog21 initialView "zz" "all").1 ∧
    namedProduct "20" "zz" ∉ (searchProducts asciiOps catalog21 initialView "" "all").1 := by
  decide

/-- C20, amended: the filtered result of `searchProducts(x, cat)` is a
sub-sequence of the filtered result of `searchProducts("", cat)`; so every
product returned by `searchProducts(x, cat)` is in the filtered result of
`searchProducts("", cat)`, and is among the products that call returns when
its page is 1 and its filtered result has at most 20 products. -/
theorem searchProducts_composable (ops : StringOps) (products : List Product)
    (view1 view2 : SearchView) (x cat : String) :
    List.Sublist (searchProducts ops products view1 x cat).2.currentSearchResults
      (searchProducts ops products view2 "" cat).2.currentSearchResults ∧
    (∀ p ∈ (searchProducts ops products view1 x cat).1,
      p ∈ (searchProducts ops products view2 "" cat).2.currentSearchResults) ∧
    (view2.currentPage = 1 →
      (searchProducts ops products view2 "" cat).2.currentSearchResults.length ≤ 20 →
      ∀ p ∈ (searchProducts ops products view1 x cat).1,
        p ∈ (searchProducts ops products view2 "" cat).1) := by
  have hsub : List.Sublist (searchProducts ops products view1 x cat).2.currentSearchResults
      (searchProducts ops products view2 "" cat).2.currentSearchResults := by
    rw [searchProducts_results, searchProducts_results]
    exact (filteredBySpec_sublist _ ops products x cat).1
  have hmem : ∀ p ∈ (searchProducts ops products view1 x cat).1,
      p ∈ (searchProducts ops products view2 "" cat).2.currentSearchResults := by
    intro p hp
    rw [(searchProducts_page ops products view1 x cat).1] at hp
    exact hsub.subset (mem_of_mem_slice _ _ _ _ hp)
  refine ⟨hsub, hmem, ?_⟩
  intro h1 hlen p hp
  have hpage := (searchProducts_page ops products view2 "" cat).1
  rw [h1] at hpage
  rw [hpage]
  have h20 : slice (searchProducts ops products view2 "" cat).2.currentSearchResults
      ((1 - 1) * 20) ((1 - 1) * 20 + 20)
      = (searchProducts ops products view2 "" cat).2.currentSearchResults := by
    have := slice_first_page (searchProducts ops products view2 "" cat).2.currentSearchResults
    rw [List.take_of_length_le hlen] at this
    simpa using this
  rw [h20]
  exact hmem p hp

/-- Witness of the amended C20: a catalog of two products, query `zz`. -/
theorem searchProducts_composable_witness :
    initialView.currentPage = 1 ∧
    (searchProducts asciiOps [namedProduct "1" "aa", namedProduct "2" "zz"] initialView ""
      "all").2.currentSearchResults.length ≤ 20 ∧
    ∀ p ∈ (searchProducts asciiOps [namedProduct "1" "aa", namedProduct "2" "zz"] initialView
        "zz" "all").1,
      p ∈ (searchProducts asciiOps [namedProduct "1" "aa", namedProduct "2" "zz"] initialView
        "" "all").1 :=
  ⟨rfl, by decide,
    (searchProducts_composable asciiOps [namedProduct "1" "aa", namedProduct "2" "zz"]
      initialView initialView "zz" "all").2.2 rfl (by decide)⟩

/-! ## Cart lines keep distinct ids -/
theorem getProductById_id (db : ProductDB) (productId : String) (product : Product)
    (h : db.getProductById productId = some product) : product.id = productId := by
  unfold ProductDB.getProductById at h
  have := List.find?_some h
  simpa using this

theorem nodup_ids_eraseIdx (cart : List CartItem) (i : Nat)
    (h : (cart.map CartItem.id).Nodup) : ((cart.eraseIdx i).map CartItem.id).Nodup :=
  List.Nodup.sublist ((List.eraseIdx_sublist cart i).map CartItem.id) h

theorem applyOp_ids_nodup (db : ProductDB) (op : CartOp)
    (h : (db.cart.map CartItem.id).Nodup) :
    ((db.applyOp op).cart.map CartItem.id).Nodup := by
  cases op with
  | add productId quantity =>
    simp only [ProductDB.applyOp]
    rcases addToCart_cart_cases db productId quantity with ⟨_, hc⟩ | ⟨product, hp, _, hc | hc⟩
    · rw [hc]; exact h
    · obtain ⟨i, _, _, hcart⟩ := hc
      rw [hcart]
      have := map_id_set_quantity db.cart i (db.cart[i.val].quantity + quantity)
      simp only [Fin.getElem_fin] at this
      rw [this]; exact h
    · obtain ⟨hno, _, item, hid, _, hcart⟩ := hc
      rw [hcart, List.map_append, List.map_cons, List.map_nil]
      have hpid : item.id = productId := by rw [hid]; exact getProductById_id db _ _ hp
      refine List.nodup_append.2 ⟨h, List.nodup_singleton _, ?_⟩
      intro a ha hb
      simp only [List.mem_singleton] at hb
      simp only [List.mem_map] at ha
      obtain ⟨l, hl, hla⟩ := ha
      exact hno l hl (by rw [hla, hb, hpid])
  | update productId quantity =>
    simp only [ProductDB.applyOp]
    rcases updateCartQuantity_cart_cases db productId quantity with
      ⟨_, hc⟩ | ⟨product, _, _, i, _, hc | hc⟩
    · rw [hc]; exact h
    · rw [hc.2]; exact nodup_ids_eraseIdx _ _ h
    · rw [hc.2.2]
      have := map_id_set_quantity db.cart i quantity
      simp only [Fin.getElem_fin] at this
      rw [this]; exact h
  | remove productId =>
    simp only [ProductDB.applyOp]
    rcases removeFromCart_cart_cases db productId with hc | ⟨i, _, hc⟩
    · rw [hc]; exact h
    · rw [hc]; exact nodup_ids_eraseIdx _ _ h
  | clear =>
    simp [ProductDB.applyOp, ProductDB.clearCart, ProductDB.saveOriginalCart,
      ProductDB.saveCart]

theorem runOps_ids_nodup (ops : List CartOp) (db : ProductDB)
    (h : (db.cart.map CartItem.id).Nodup) :
    ((db.runOps ops).cart.map CartItem.id).Nodup := by
  induction ops generalizing db with
  | nil => simpa [ProductDB.runOps] using h
  | cons op ops ih =>
    have := ih (db.applyOp op) (applyOp_ids_nodup db op h)
    simpa [ProductDB.runOps] using this

/-- C28: if no two lines of the cart share an id, then after any `addToCart`,
`updateCartQuantity`, `removeFromCart` or `clearCart` call, successful or not,
no two lines share an id; in particular the lines of every cart built from
the empty cart by such calls have pairwise distinct ids. -/
theorem cart_ids_stay_distinct :
    (∀ (db : ProductDB) (op : CartOp), (db.cart.map CartItem.id).Nodup →
      ((db.applyOp op).cart.map CartItem.id).Nodup) ∧
    (∀ (db : ProductDB) (ops : List CartOp), db.cart = [] →
      ((db.runOps ops).cart.map CartItem.id).Nodup) :=
  ⟨applyOp_ids_nodup, fun db ops hempty =>
    runOps_ids_nodup ops db (by simp [hempty])⟩

/-- Witness of C28: adding a third product to a cart with lines for `a` and `b`. -/
theorem cart_ids_stay_distinct_witness :
    (distinctDb.cart.map CartItem.id).Nodup ∧
    ((distinctDb.applyOp (CartOp.add "c" 1)).cart.map CartItem.id).Nodup ∧
    (distinctDb.applyOp (CartOp.add "c" 1)).cart.length = 3 :=
  ⟨by decide, cart_ids_stay_distinct.1 distinctDb (CartOp.add "c" 1) (by decide), by decide⟩

/-! ## Validation of showBill against checkout -/
theorem isOffender_eq_false_iff (db : ProductDB) (line : CartItem) :
    isOffender db line = false ↔
      ∃ product, db.getProductById line.id = some product ∧ product.stock ≥ line.quantity := by
  unfold isOffender
  cases db.getProductById line.id with
  | none => simp
  | some product => simp

theorem showBillValidation_true_iff (db : ProductDB) :
    (showBillValidation db).1 = true ↔
      ∀ line ∈ db.cart, ∃ product,
        db.getProductById line.id = some product ∧ product.stock ≥ line.quantity := by
  have h2 := (showBillValidation_fold db db.cart (true, [])).2
  unfold showBillValidation
  rw [h2]
  simp only [Bool.true_and, List.isEmpty_iff, List.filter_eq_nil_iff]
  constructor
  · intro h line hl
    exact (isOffender_eq_false_iff db line).1 (by simpa using h line hl)
  · intro h line hl
    have := (isOffender_eq_false_iff db line).2 (h line hl)
    simp [this]

theorem checkoutLoop_true_valid (cart : List CartItem) (ps : List Product)
    (hd : (cart.map CartItem.id).Nodup) (h : (checkoutLoop cart ps).1 = true) :
    ∀ line ∈ cart, ∃ k product, productIndex ps line.id = some k ∧
      ps[k]? = some product ∧ product.stock ≥ line.quantity := by
  induction cart generalizing ps with
  | nil => intro line hl; simp at hl
  | cons item rest ih =>
    obtain ⟨hnotin, hd'⟩ := List.nodup_cons.1 hd
    cases hf : findIndex (fun product => product.id == item.id) ps with
    | none => simp [checkoutLoop, hf] at h
    | some i =>
      by_cases hst : ps[i.val].stock ≥ item.quantity
      · simp only [checkoutLoop, hf, Fin.getElem_fin, hst, if_true] at h
        have hidx : productIndex ps item.id = some i.val := by
          simp [productIndex, hf]
        have hids := map_id_set_stock ps i (ps[i].stock - item.quantity)
        simp only [Fin.getElem_fin] at hids
        intro line hl
        simp only [List.mem_cons] at hl
        rcases hl with rfl | hl
        · exact ⟨i.val, ps[i.val], hidx, by simp, hst⟩
        · obtain ⟨k, product, hk, hget, hge⟩ := ih _ hd' h line hl
          rw [productIndex_congr _ _ _ hids] at hk
          have hki : i.val ≠ k := by
            intro hik
            subst hik
            obtain ⟨p1, hp1, hid1⟩ := productIndex_spec _ _ _ hk
            obtain ⟨p2, hp2, hid2⟩ := productIndex_spec _ _ _ hidx
            rw [hp1] at hp2
            have : line.id = item.id := by
              rw [← hid1, ← hid2, Option.some.inj hp2]
            exact hnotin (by rw [← this]; exact List.mem_map_of_mem _ hl)
          rw [List.getElem?_set_ne hki] at hget
          exact ⟨k, product, hk, hget, hge⟩
      · simp [checkoutLoop, hf, hst] at h

theorem valid_iff_productIndex (db : ProductDB) (line : CartItem) :
    (∃ product, db.getProductById line.id = some product ∧ product.stock ≥ line.quantity) ↔
      ∃ k product, productIndex db.products line.id = some k ∧
        db.products[k]? = some product ∧ product.stock ≥ line.quantity := by
  rw [getProductById_eq_productIndex]
  cases hk : productIndex db.products line.id with
  | none => simp
  | some k => simp

/-! ## The showBill flow -/
theorem checkout_of_valid (db : ProductDB) (hd : (db.cart.map CartItem.id).Nodup)
    (hok : ∀ line ∈ db.cart, ∃ product,
      db.getProductById line.id = some product ∧ product.stock ≥ line.quantity) :
    (db.checkout).1 = true ∧
    ∀ line ∈ db.cart, ∀ product, db.getProductById line.id = some product →
      (db.checkout).2.getProductById line.id =
        some { product with stock := product.stock - line.quantity } := by
  obtain ⟨qs, hloop, hids, hdec, _⟩ := checkoutLoop_commits db.cart db.products hd
    (fun line hl => (valid_iff_productIndex db line).1 (hok line hl))
  obtain ⟨h1, h2, _⟩ := checkout_eq_checkoutLoop db
  rw [hloop] at h1 h2
  simp only at h1 h2
  refine ⟨h1, ?_⟩
  intro line hl product hp
  rw [getProductById_eq_productIndex] at hp ⊢
  rw [h2, productIndex_congr _ _ _ hids]
  cases hk : productIndex db.products line.id with
  | none => simp [hk] at hp
  | some k =>
    simp only [hk, Option.some_bind] at hp ⊢
    exact hdec line hl k product hk hp

/-- C29: for a cart with pairwise distinct product ids, the validation loop of
`showBill` finds no offending line if and only if `checkout()` on the same
state returns true; so when `showBill` reaches `checkout()`, it returns true
and lowers the stock of every line's product by the line quantity, and when
the validation rejects the state (the stock in particular) is untouched. -/
theorem showBill_never_commits_partially (db : ProductDB)
    (hd : (db.cart.map CartItem.id).Nodup) :
    ((showBillValidation db).1 = true ↔ (db.checkout).1 = true) ∧
    ((showBill db).1 = true →
      (db.checkout).1 = true ∧ (showBill db).2 = (db.checkout).2 ∧
      ∀ line ∈ db.cart, ∀ product, db.getProductById line.id = some product →
        (showBill db).2.getProductById line.id =
          some { product with stock := product.stock - line.quantity }) ∧
    ((showBillValidation db).1 = false → showBill db = (false, db)) := by
  have hiff : (showBillValidation db).1 = true ↔ (db.checkout).1 = true := by
    rw [showBillValidation_true_iff]
    constructor
    · intro hok
      exact (checkout_of_valid db hd hok).1
    · intro hc line hl
      rw [(checkout_eq_checkoutLoop db).1] at hc
      exact (valid_iff_productIndex db line).2
        (checkoutLoop_true_valid db.cart db.products hd hc line hl)
  refine ⟨hiff, ?_, ?_⟩
  · intro hreach
    unfold showBill at hreach ⊢
    by_cases hlen : db.cart.length = 0
    · simp [hlen] at hreach
    · by_cases hv : (showBillValidation db).1 = false
      · simp [hlen, hv] at hreach
      · have hvt : (showBillValidation db).1 = true := by simpa using hv
        have hok := (showBillValidation_true_iff db).1 hvt
        simp only [hlen, hv, if_false]
        exact ⟨hiff.1 hvt, rfl, (checkout_of_valid db hd hok).2⟩
  · intro hv
    unfold showBill
    by_cases hlen : db.cart.length = 0
    · simp [hlen]
    · simp [hlen, hv]

/-- Witness of C29 on the committed checkout of the specification. -/
theorem showBill_never_commits_partially_witness :
    (committedDb.cart.map CartItem.id).Nodup ∧
    ((showBillValidation committedDb).1 = true ↔ (committedDb.checkout).1 = true) ∧
    (showBill committedDb).1 = true ∧
    (showBill committedDb).2.products.map Product.stock = [8, 7, 0] ∧
    (showBillValidation rejectedDb).1 = false ∧
    showBill rejectedDb = (false, rejectedDb) :=
  ⟨by decide, (showBill_never_commits_partially committedDb (by decide)).1, by decide,
    by decide, by decide,
    (showBill_never_commits_partially rejectedDb (by decide)).2.2 (by decide)⟩

/-! ## The plus button of a product card; the page after a search -/
/-- C30 fails on the code: with stock 10 and 5 units in the cart, the product
card of `renderProducts` disables the plus button (10 - 5 <= 5) although
`addToCart(id, 1)` returns true, and `handlePlusClick` would not disable it. -/
theorem plus_button_disabled_too_early :
    cartQuantityFor halfFullDb "a" = 5 ∧
    renderProductsPlusDisabled halfFullDb (sampleProduct "a" 10) = true ∧
    (halfFullDb.addToCart "a" 1).1 = true ∧
    handlePlusClickDisablesPlus halfFullDb "a" = false := by
  decide

/-- C21 as stated fails: on page 3, `searchProducts` leaves the page at 3. -/
theorem searchProducts_keeps_page_three :
    (searchProducts asciiOps [sampleProduct "a" 5] pageThreeView "" "all").2.currentPage = 3 := by
  decide

/-- C21, amended: `searchProducts` leaves `currentPage` as it was; the page is
1 after each handler that starts a search, because the handler assigns
`currentPage = 1` before it calls `searchProducts`. -/
theorem searchProducts_currentPage (ops : StringOps) (products : List Product)
    (view : SearchView) (query category : String) :
    (searchProducts ops products view query category).2.currentPage = view.currentPage ∧
    (searchHandler ops products view query category).2.currentPage = 1 :=
  ⟨rfl, rfl⟩

/-! ## Pages: slices and their number -/
theorem slice_page {α : Type} (xs : List α) (start : Int) (h0 : 0 ≤ start) :
    slice xs start (start + 20) = (xs.drop start.toNat).take 20 := by
  unfold slice
  have h1 : ¬ start < 0 := by omega
  have h2 : ¬ start + 20 < 0 := by omega
  simp only [h1, h2, if_false]
  by_cases hlen : (xs.length : Int) ≤ start
  · have hk : min start (xs.length : Int) = xs.length := by omega
    have hd : xs.drop start.toNat = [] := List.drop_eq_nil_of_le (by omega)
    rw [hk, hd]
    simp
  · have hk : min start (xs.length : Int) = start := by omega
    rw [hk]
    by_cases hshort : (xs.length : Int) - start ≤ 20
    · have hf : (min (start + 20) (xs.length : Int) - start).toNat
          = (xs.drop start.toNat).length := by
        rw [List.length_drop]; omega
      rw [hf, List.take_of_length_le (le_refl _), List.take_of_length_le]
      rw [List.length_drop]; omega
    · have hf : (min (start + 20) (xs.length : Int) - start).toNat = 20 := by omega
      rw [hf]

theorem getTotalPages_le_iff (view : SearchView) (k : Int) :
    getTotalPages view ≤ k ↔ (view.currentSearchResults.length : Int) ≤ 20 * k := by
  unfold getTotalPages itemsPerPage
  rw [Int.ceil_le, div_le_iff₀ (by norm_num)]
  constructor
  · intro h
    push_cast at h
    have h2 : (view.currentSearchResults.length : ℚ) ≤ 20 * (k : ℚ) := by linarith
    exact_mod_cast h2
  · intro h
    have h2 : (view.currentSearchResults.length : ℚ) ≤ 20 * (k : ℚ) := by exact_mod_cast h
    push_cast
    linarith

/-! ## Pages: getTotalPages and getPaginatedProducts -/
/-- C23: `getTotalPages()` is the ceiling of `filteredCount / 20`: the least
integer `k` with `20 * k >= filteredCount`, which is `(filteredCount + 19) / 20`
rounded down; 0 for an empty result and 3 for 45 items. -/
theorem getTotalPages_spec (view : SearchView) :
    ((view.currentSearchResults.length : Int) ≤ 20 * getTotalPages view ∧
      ∀ k : Int, (view.currentSearchResults.length : Int) ≤ 20 * k → getTotalPages view ≤ k) ∧
    getTotalPages view = (((view.currentSearchResults.length + 19) / 20 : Nat) : Int) ∧
    (view.currentSearchResults.length = 0 → getTotalPages view = 0) ∧
    (view.currentSearchResults.length = 45 → getTotalPages view = 3) := by
  have hiff := getTotalPages_le_iff view
  have hle := (hiff (getTotalPages view)).1 (le_refl _)
  have hformula : getTotalPages view
      = (((view.currentSearchResults.length + 19) / 20 : Nat) : Int) := by
    apply le_antisymm
    · rw [hiff]; omega
    · by_contra hlt
      have h1 : getTotalPages view
          ≤ (((view.currentSearchResults.length + 19) / 20 : Nat) : Int) - 1 := by omega
      rw [hiff] at h1
      omega
  refine ⟨⟨hle, fun k hk => (hiff k).2 hk⟩, hformula, ?_, ?_⟩
  · intro h0
    rw [hformula, h0]
    rfl
  · intro h45
    rw [hformula, h45]
    rfl

/-- C22: for a page number `page >= 1`, `getPaginatedProducts()` returns the
elements of the current filtered result at the indices
`[(page-1)*20, page*20)` that exist, in order; it returns the empty sequence
when the page exceeds the number of pages; for 45 items, page 3 has exactly 5
items and page 4 is empty. -/
theorem getPaginatedProducts_spec (view : SearchView) (hpage : 1 ≤ view.currentPage) :
    getPaginatedProducts view =
      (view.currentSearchResults.drop ((view.currentPage - 1) * 20).toNat).take 20 ∧
    (∀ j : Nat, (getPaginatedProducts view)[j]? =
      if j < 20 then view.currentSearchResults[((view.currentPage - 1) * 20).toNat + j]?
      else none) ∧
    (getTotalPages view < view.currentPage → getPaginatedProducts view = []) ∧
    (view.currentSearchResults.length = 45 →
      (view.currentPage = 3 → (getPaginatedProducts view).length = 5) ∧
      (view.currentPage = 4 → getPaginatedProducts view = [])) := by
  have hslice : getPaginatedProducts view =
      (view.currentSearchResults.drop ((view.currentPage - 1) * 20).toNat).take 20 := by
    unfold getPaginatedProducts itemsPerPage
    exact slice_page _ _ (by omega)
  refine ⟨hslice, ?_, ?_, ?_⟩
  · intro j
    rw [hslice]
    by_cases hj : j < 20
    · simp [hj, List.getElem?_take, List.getElem?_drop]
    · simp [hj, List.getElem?_take]
  · intro hlt
    have hle := (getTotalPages_le_iff view (getTotalPages view)).1 (le_refl _)
    rw [hslice, List.drop_eq_nil_of_le (by omega)]
    rfl
  · intro h45
    constructor
    · intro h3
      rw [hslice, h3]
      simp [List.length_take, List.length_drop, h45]
    · intro h4
      rw [hslice, h4, List.drop_eq_nil_of_le (by rw [h45]; decide)]
      rfl

/-- Witness of C22: page 3 of 45 products holds the products 40 to 44. -/
theorem getPaginatedProducts_spec_witness :
    (1 : Int) ≤ (view45 3).currentPage ∧
    getPaginatedProducts (view45 3) =
      ((view45 3).currentSearchResults.drop (((view45 3).currentPage - 1) * 20).toNat).take 20 ∧
    (getPaginatedProducts (view45 3)).map Product.id = ["40", "41", "42", "43", "44"] :=
  ⟨by decide, (getPaginatedProducts_spec (view45 3) (by decide)).1, by decide⟩

/-! ## The bill serial -/
theorem toDigitsCore_length (fuel n k : Nat) (ds : List Char) (hf : n < fuel)
    (hk : n < 10 ^ k) (hk1 : 1 ≤ k) :
    (Nat.toDigitsCore 10 fuel n ds).length ≤ k + ds.length := by
  induction fuel generalizing n k ds with
  | zero => omega
  | succ fuel ih =>
    by_cases h0 : n / 10 = 0
    · simp [Nat.toDigitsCore, h0]
      omega
    · have hk2 : 2 ≤ k := by
        by_contra hlt
        have : k = 1 := by omega
        subst this
        have : n < 10 := by simpa using hk
        omega
      have hdiv : n / 10 < 10 ^ (k - 1) := by
        apply Nat.div_lt_of_lt_mul
        have : 10 ^ k = 10 * 10 ^ (k - 1) := by
          rw [← pow_succ']
          congr 1
          omega
        omega
      have := ih (n / 10) (k - 1) (Nat.digitChar (n % 10) :: ds) (by omega) hdiv (by omega)
      simp only [Nat.toDigitsCore, h0, if_false]
      simp only [List.length_cons] at this
      omega

theorem toDigits_length_le (n k : Nat) (hk : n < 10 ^ k) (hk1 : 1 ≤ k) :
    (Nat.toDigits 10 n).length ≤ k := by
  have := toDigitsCore_length (n + 1) n k [] (by omega) hk hk1
  simpa [Nat.toDigits] using this

theorem padStart_zero (n width : Nat) (hn : n < 2 ^ 53) :
    padStart (numberToString n) width "0" = zeroPadded width n := by
  rw [numberToString_of_lt n hn]
  unfold padStart zeroPadded
  by_cases h : width ≤ (Nat.toDigits 10 n).length
  · have h0 : width - (Nat.toDigits 10 n).length = 0 := by omega
    simp [String.length, h, h0]
  · have hne : ¬ (width ≤ (Nat.toDigits 10 n).length ∨ ("0" : String) = "") := by
      intro hor
      rcases hor with hor | hor
      · exact h hor
      · exact absurd hor (by decide)
    have hflat : ∀ j : Nat, (List.replicate j ['0']).flatten = List.replicate j '0' := by
      intro j
      induction j with
      | zero => rfl
      | succ j ih =>
        rw [List.replicate_succ, List.flatten_cons, ih]
        rfl
    simp only [String.length, hne, if_false, String.toList]
    rw [hflat, List.take_of_length_le (by simp)]

theorem decimalValue_leading_zeros (j : Nat) (l : List Char) :
    decimalValue (List.replicate j '0' ++ l) = decimalValue l := by
  induction j with
  | zero => rfl
  | succ j ih =>
    have hstep : decimalValue ('0' :: (List.replicate j '0' ++ l))
        = decimalValue (List.replicate j '0' ++ l) := by
      unfold decimalValue
      rw [List.foldl_cons]
      rfl
    rw [List.replicate_succ, List.cons_append, hstep, ih]

theorem zeroPadded_spec (width n : Nat) (hn : n < 10 ^ width) (hw : 1 ≤ width) :
    (zeroPadded width n).length = width ∧
    decimalValue (zeroPadded width n).toList = n ∧
    ∀ c ∈ (zeroPadded width n).toList, c.isDigit = true := by
  have hlen := toDigits_length_le n width hn hw
  obtain ⟨hval, hdig⟩ := toDigits_spec n
  unfold zeroPadded
  refine ⟨?_, ?_, ?_⟩
  · simp only [String.length, List.length_append, List.length_replicate]
    omega
  · simp only [String.toList]
    rw [decimalValue_leading_zeros]
    exact hval
  · intro c hc
    simp only [String.toList, List.mem_append, List.mem_replicate] at hc
    rcases hc with ⟨_, rfl⟩ | hc
    · decide
    · exact hdig c hc

/-- C27: for a month `m` in 1..12, a day `d` in 1..31 and a draw `r` in
0..9999, `generateBillSerial` produces `AYM-`, `m` zero-padded to 2 digits,
`-`, `r` zero-padded to 4 digits, `-`, `d` zero-padded to 2 digits: the three
groups have exactly 2, 4 and 2 decimal digits, which read `m`, `r` and `d`,
and the serial has exactly 14 characters. -/
theorem generateBillSerial_format (m d r : Nat) (hm : 1 ≤ m ∧ m ≤ 12)
    (hd : 1 ≤ d ∧ d ≤ 31) (hr : r ≤ 9999) :
    generateBillSerial (m - 1) d r =
      "AYM-" ++ zeroPadded 2 m ++ "-" ++ zeroPadded 4 r ++ "-" ++ zeroPadded 2 d ∧
    ((zeroPadded 2 m).length = 2 ∧ decimalValue (zeroPadded 2 m).toList = m ∧
      ∀ c ∈ (zeroPadded 2 m).toList, c.isDigit = true) ∧
    ((zeroPadded 4 r).length = 4 ∧ decimalValue (zeroPadded 4 r).toList = r ∧
      ∀ c ∈ (zeroPadded 4 r).toList, c.isDigit = true) ∧
    ((zeroPadded 2 d).length = 2 ∧ decimalValue (zeroPadded 2 d).toList = d ∧
      ∀ c ∈ (zeroPadded 2 d).toList, c.isDigit = true) ∧
    (generateBillSerial (m - 1) d r).length = 14 := by
  have hmm := zeroPadded_spec 2 m (by omega) (by omega)
  have hrr := zeroPadded_spec 4 r (by omega) (by omega)
  have hdd := zeroPadded_spec 2 d (by omega) (by omega)
  have hserial : generateBillSerial (m - 1) d r =
      "AYM-" ++ zeroPadded 2 m ++ "-" ++ zeroPadded 4 r ++ "-" ++ zeroPadded 2 d := by
    unfold generateBillSerial
    have hm1 : m - 1 + 1 = m := by omega
    simp only [hm1]
    rw [padStart_zero m 2 (by omega), padStart_zero d 2 (by omega),
      padStart_zero r 4 (by omega)]
  refine ⟨hserial, hmm, hrr, hdd, ?_⟩
  rw [hserial]
  simp only [String.length_append, hmm.1, hrr.1, hdd.1]
  rfl

/-- Witness of C27: the fifth of January with the draw 42. -/
theorem generateBillSerial_format_witness :
    ((1 : Nat) ≤ 1 ∧ (1 : Nat) ≤ 12) ∧ ((1 : Nat) ≤ 5 ∧ (5 : Nat) ≤ 31) ∧ (42 : Nat) ≤ 9999 ∧
    generateBillSerial (1 - 1) 5 42 = "AYM-01-0042-05" ∧
    (generateBillSerial (1 - 1) 5 42).length = 14 :=
  ⟨by decide, by decide, by decide, by decide,
    (generateBillSerial_format 1 5 42 (by decide) (by decide) (by decide)).2.2.2.2⟩

/-! ## Ingestion: values of a set in first-seen order -/
theorem newSet_fold (pre rest set : List String)
    (hnodup : set.Nodup) (hmem : ∀ u, u ∈ set ↔ u ∈ pre)
    (hord : set.Pairwise
      (fun u v => (pre ++ rest).indexOf u < (pre ++ rest).indexOf v)) :
    (rest.foldl (fun set value => if value ∈ set then set else set ++ [value]) set).Nodup ∧
    (∀ u, u ∈ rest.foldl (fun set value => if value ∈ set then set else set ++ [value]) set
      ↔ u ∈ pre ++ rest) ∧
    (rest.foldl (fun set value => if value ∈ set then set else set ++ [value]) set).Pairwise
      (fun u v => (pre ++ rest).indexOf u < (pre ++ rest).indexOf v) := by
  induction rest generalizing pre set with
  | nil =>
    simp only [List.foldl_nil, List.append_nil] at hord ⊢
    exact ⟨hnodup, hmem, hord⟩
  | cons x rest ih =>
    have happ : pre ++ x :: rest = (pre ++ [x]) ++ rest := by simp
    simp only [List.foldl_cons]
    rw [happ] at hord ⊢
    by_cases hx : x ∈ set
    · simp only [hx, if_true]
      apply ih (pre ++ [x]) set hnodup _ hord
      intro u
      rw [hmem u, List.mem_append, List.mem_singleton]
      constructor
      · intro h; exact Or.inl h
      · intro h
        rcases h with h | h
        · exact h
        · rw [h]; exact (hmem x).1 hx
    · simp only [hx, if_false]
      have hxpre : x ∉ pre := fun h => hx ((hmem x).2 h)
      apply ih (pre ++ [x]) (set ++ [x])
      · refine List.nodup_append.2 ⟨hnodup, List.nodup_singleton _, ?_⟩
        intro a ha hb
        simp only [List.mem_singleton] at hb
        exact hx (hb ▸ ha)
      · intro u
        simp only [List.mem_append, List.mem_singleton, hmem u]
      · rw [List.pairwise_append]
        refine ⟨hord, List.pairwise_singleton _ _, ?_⟩
        intro a ha b hb
        simp only [List.mem_singleton] at hb
        subst hb
        have hapre : a ∈ pre := (hmem a).1 ha
        have h1 : ((pre ++ [b]) ++ rest).indexOf a = pre.indexOf a := by
          rw [List.append_assoc, List.indexOf_append_of_mem hapre]
        have h2 : ((pre ++ [b]) ++ rest).indexOf b = pre.length := by
          rw [List.append_assoc, List.indexOf_append_of_not_mem hxpre]
          simp
        rw [h1, h2]
        exact List.indexOf_lt_length.2 hapre

theorem newSet_spec (values : List String) :
    (newSet values).Nodup ∧ (∀ u, u ∈ newSet values ↔ u ∈ values) ∧
    (newSet values).Pairwise (fun u v => values.indexOf u < values.indexOf v) := by
  have := newSet_fold [] values [] List.nodup_nil (by simp) List.Pairwise.nil
  simpa [newSet] using this

theorem newSet_eq_nil_iff (values : List String) : newSet values = [] ↔ values = [] := by
  have hmem := (newSet_spec values).2.1
  constructor
  · intro h
    cases values with
    | nil => rfl
    | cons v vs =>
      have := (hmem v).2 (by simp)
      rw [h] at this
      simp at this
  · intro h
    rw [h]; rfl

/-! ## Ingestion: the gathered images -/
theorem foldl_append_eq_flatMap {α : Type} (f : α → List String) (xs : List α)
    (start : List String) :
    xs.foldl (fun found x => found ++ f x) start = start ++ xs.flatMap f := by
  induction xs generalizing start with
  | nil => simp
  | cons x xs ih => simp [ih, List.append_assoc]

theorem candidateImages_eq (fields : List (String × Cell)) :
    candidateImages fields =
      imageFields.flatMap (fun fieldName => extractImages (getField fields fieldName)) := by
  have hstep : (fun (foundImages : List String) (fieldName : String) =>
      match getField fields fieldName with
      | some fieldValue =>
        if fieldValue.truthy then foundImages ++ extractImages (some fieldValue)
        else foundImages
      | none => foundImages)
      = (fun foundImages fieldName =>
          foundImages ++ extractImages (getField fields fieldName)) := by
    funext foundImages fieldName
    cases hget : getField fields fieldName with
    | none => simp [extractImages]
    | some cell =>
      by_cases ht : cell.truthy = true
      · simp [ht]
      · simp [ht, extractImages]
  unfold candidateImages
  rw [hstep, foldl_append_eq_flatMap]
  simp

theorem matchingImages_eq (ops : StringOps) (fields : List (String × Cell)) :
    matchingImages ops fields =
      fields.flatMap (fun entry =>
        if includes (ops.toLowerCase entry.1) "image" || includes (ops.toLowerCase entry.1) "pic"
            || looksLikeAttachments entry.2 then extractImages (some entry.2)
        else []) := by
  have hstep : (fun (foundImages : List String) (entry : String × Cell) =>
      if includes (ops.toLowerCase entry.1) "image" || includes (ops.toLowerCase entry.1) "pic"
          || looksLikeAttachments entry.2 then
        foundImages ++ extractImages (some entry.2)
      else foundImages)
      = (fun foundImages entry =>
          foundImages ++
            (if includes (ops.toLowerCase entry.1) "image"
                || includes (ops.toLowerCase entry.1) "pic"
                || looksLikeAttachments entry.2 then extractImages (some entry.2)
             else [])) := by
    funext foundImages entry
    split <;> simp
  unfold matchingImages
  rw [hstep, foldl_append_eq_flatMap]
  simp

theorem ingestRecord_some (ops : StringOps) (record : RawRecord) (product : IngestedProduct)
    (h : ingestRecord ops record = some product) :
    product.images =
      (if (newSet (foundImages ops record.fields)).length = 0 then
        newSet (foundImages ops record.fields)
          ++ [placeholderImage (getCategoryPlaceholder product.category)]
      else newSet (foundImages ops record.fields)) ∧
    product.stock = ingestStock record.fields := by
  unfold ingestRecord at h
  simp only at h
  split at h
  · exact absurd h (by simp)
  · have h2 := Option.some.inj h
    rw [← h2]
    exact ⟨rfl, rfl⟩

/-! ## Ingestion: images and stock of a product -/
/-- C24: the images list of every ingested product is non-empty: when at least
one URL was gathered it holds the gathered URLs (each once), and otherwise it
holds exactly one placeholder, synthesized from the product's category. -/
theorem ingested_images_nonempty (ops : StringOps) (record : RawRecord)
    (product : IngestedProduct) (h : ingestRecord ops record = some product) :
    product.images ≠ [] ∧
    (foundImages ops record.fields ≠ [] →
      product.images = newSet (foundImages ops record.fields) ∧
      ∀ u, u ∈ product.images ↔ u ∈ foundImages ops record.fields) ∧
    (foundImages ops record.fields = [] →
      product.images = [placeholderImage (getCategoryPlaceholder product.category)]) := by
  have himg := (ingestRecord_some ops record product h).1
  by_cases hfound : foundImages ops record.fields = []
  · have hset : newSet (foundImages ops record.fields) = [] :=
      (newSet_eq_nil_iff _).2 hfound
    rw [hset] at himg
    simp only [List.length_nil, if_true, List.nil_append] at himg
    refine ⟨by rw [himg]; simp, fun hne => absurd hfound hne, fun _ => himg⟩
  · have hset : newSet (foundImages ops record.fields) ≠ [] :=
      fun hnil => hfound ((newSet_eq_nil_iff _).1 hnil)
    have hlen : ¬ (newSet (foundImages ops record.fields)).length = 0 := by
      intro h0
      exact hset (List.length_eq_zero.1 h0)
    simp only [hlen, if_false] at himg
    refine ⟨by rw [himg]; exact hset, fun _ => ⟨himg, ?_⟩, fun hnil => absurd hnil hfound⟩
    intro u
    rw [himg]
    exact (newSet_spec _).2.1 u

/-- Witness of C24: a record with images and a record without any. -/
theorem ingested_images_nonempty_witness :
    (∃ product, ingestRecord asciiOps picturesRecord = some product ∧
      product.images = ["u1", "u2"]) ∧
    (∃ product, ingestRecord asciiOps plainRecord = some product ∧ product.images ≠ [] ∧
      product.images = [placeholderImage "📚"]) :=
  ⟨⟨(ingestRecord asciiOps picturesRecord).get (by decide), by decide, by decide⟩,
    ⟨(ingestRecord asciiOps plainRecord).get rfl, rfl,
      (ingested_images_nonempty asciiOps plainRecord
        ((ingestRecord asciiOps plainRecord).get rfl) rfl).1,
      rfl⟩⟩

/-- C25: the images of an ingested product hold no URL twice, hold every
gathered URL, and are ordered by the first occurrence of each URL in the
gathering order, which runs through the fixed candidate fields first and
through the other matching fields after them. -/
theorem ingested_images_deduplicated (ops : StringOps) (record : RawRecord)
    (product : IngestedProduct) (h : ingestRecord ops record = some product) :
    product.images.Nodup ∧
    (∀ u ∈ foundImages ops record.fields, u ∈ product.images) ∧
    product.images.Pairwise (fun u v =>
      (foundImages ops record.fields).indexOf u < (foundImages ops record.fields).indexOf v) ∧
    foundImages ops record.fields =
      imageFields.flatMap (fun fieldName => extractImages (getField record.fields fieldName))
      ++ record.fields.flatMap (fun entry =>
        if includes (ops.toLowerCase entry.1) "image" || includes (ops.toLowerCase entry.1) "pic"
            || looksLikeAttachments entry.2 then extractImages (some entry.2)
        else []) := by
  have himg := (ingestRecord_some ops record product h).1
  have horder : foundImages ops record.fields =
      imageFields.flatMap (fun fieldName => extractImages (getField record.fields fieldName))
      ++ record.fields.flatMap (fun entry =>
        if includes (ops.toLowerCase entry.1) "image" || includes (ops.toLowerCase entry.1) "pic"
            || looksLikeAttachments entry.2 then extractImages (some entry.2)
        else []) := by
    unfold foundImages
    rw [candidateImages_eq, matchingImages_eq]
  obtain ⟨hnodup, hmem, hpair⟩ := newSet_spec (foundImages ops record.fields)
  by_cases hfound : foundImages ops record.fields = []
  · have hset : newSet (foundImages ops record.fields) = [] :=
      (newSet_eq_nil_iff _).2 hfound
    rw [hset] at himg
    simp only [List.length_nil, if_true, List.nil_append] at himg
    refine ⟨by rw [himg]; exact List.nodup_singleton _, ?_, ?_, horder⟩
    · intro u hu
      rw [hfound] at hu
      simp at hu
    · rw [himg]
      exact List.pairwise_singleton _ _
  · have hlen : ¬ (newSet (foundImages ops record.fields)).length = 0 := by
      intro h0
      exact hfound ((newSet_eq_nil_iff _).1 (List.length_eq_zero.1 h0))
    simp only [hlen, if_false] at himg
    rw [himg]
    exact ⟨hnodup, fun u hu => (hmem u).2 hu, hpair, horder⟩

/-- Witness of C25: `u1` is gathered three times and `u2` once, after `u1`. -/
theorem ingested_images_deduplicated_witness :
    foundImages asciiOps picturesRecord.fields = ["u1", "u2", "u1", "u1"] ∧
    ∃ product, ingestRecord asciiOps picturesRecord = some product ∧
      product.images = ["u1", "u2"] ∧ product.images.Nodup :=
  ⟨by decide, (ingestRecord asciiOps picturesRecord).get (by decide), by decide, by decide,
    (ingested_images_deduplicated asciiOps picturesRecord
      ((ingestRecord asciiOps picturesRecord).get (by decide)) (by decide)).1⟩

theorem orElse_of_falsy (fields : List (String × Cell)) (name : String) (b : Cell)
    (h : truthyField fields name = false) : orElse (getField fields name) b = b := by
  unfold truthyField at h
  unfold orElse
  cases hget : getField fields name with
  | none => rfl
  | some cell =>
    rw [hget] at h
    simp only at h
    simp [h]

/-- C26 fails on the code for non-numeric text: the stock is 0 when all three
stock fields are empty, but the record whose `Stock` cell holds the text `abc`
gets the stock `NaN` (`none`), since `parseInt` is applied after the default. -/
theorem ingestStock_of_text_is_nan :
    (∀ fields : List (String × Cell), truthyField fields "موجودی" = false →
      truthyField fields "Stock" = false → truthyField fields "تعداد" = false →
      ingestStock fields = some 0) ∧
    ingestStock textStockRecord.fields = none ∧
    (ingestRecord asciiOps textStockRecord).map (fun product => product.stock) = some none := by
  refine ⟨?_, by decide, by decide⟩
  intro fields h1 h2 h3
  unfold ingestStock
  rw [orElse_of_falsy fields _ _ h1, orElse_of_falsy fields _ _ h2,
    orElse_of_falsy fields _ _ h3]
  decide

end AymShop
